import Mathlib

/-!
# Splunk HEC log writer for Caddy: a shallow embedding

The Go sources `main.go` and `caddyfile.go` are embedded as pure functions over
explicit state.  Everything the code reaches outside its own process (the HEC
client, `http.Get`, `os.Hostname`, `json.Unmarshal`, `caddy.ParseDuration`) is
an input of the embedded function: the caller of the model supplies what the
outside world answered, and the model records what was asked.
-/

set_option linter.dupNamespace false

namespace SplunkHEC

/-! ## Data model -/

/-- Go `error` values; `none` is `nil`. -/
abbrev Error := Option String

/-- Values of `time.Duration` and `caddy.Duration`, in nanoseconds. -/
abbrev Duration := Int

/-- The constant `time.Second`. -/
def Second : Duration := 1000000000

/-- The constant `SplunkCollectorHealthPath` (main.go, line 19). -/
def SplunkCollectorHealthPath : String := "/services/collector/health"

/-- The constant `http.StatusOK`. -/
def StatusOK : Int := 200

/-- The exported fields of `SplunkHECLog` (main.go, lines 25-34).  The `logger`
field is provisioned by the host before any writer exists and is modelled by
the lines it writes (see `World.log`). -/
structure SplunkHECLog where
  Url : String
  Token : String
  FlushInterval : Duration
  deriving DecidableEq, Repr

/-- A `[]byte`. -/
abbrev Bytes := List UInt8

/-- A `map[string]interface{}`: the keys with the JSON text of their values;
`none` is the `nil` map. -/
abbrev Payload := Option (List (String × String))

/-- The map literal `map[string]interface{}{}`: empty, not `nil`. -/
def emptyMap : Payload := some []

/-- A `*string` as the `Host` field of `hec.Event` holds one: `nil`, the
address of the writer's `hostname` field (what `Write` stores, `&prom.hostname`:
not a copy of the content), or the address of some other string. -/
inductive HostRef where
  | nil
  | writerHostname
  | other (content : String)
  deriving DecidableEq, Repr

/-- The two fields of `hec.Event` that `Write` fills in (main.go, lines 106-109). -/
structure Event where
  Host : HostRef
  Event : Payload
  deriving DecidableEq, Repr

/-- The HEC client built by `hec.NewClient` and `SetCompression`. -/
structure HEC where
  serverURL : String
  token : String
  compression : String
  deriving DecidableEq, Repr

/-- A `time.Ticker`: its period and whether it still delivers ticks. -/
structure Ticker where
  d : Duration
  running : Bool
  deriving DecidableEq, Repr

/-- The struct `SplunkHECWriter` (main.go, lines 64-71).  `client` and `ticker`
are `nil` until `Open` and `startFlushTicker` assign them.  `bufferMutex` is
modelled by the atomicity of the sections it guards. -/
structure SplunkHECWriter where
  hostname : String
  client : Option HEC
  buffer : List Event
  ticker : Option Ticker
  deriving DecidableEq, Repr

/-- What an event's `Host` pointer reads at a given writer state; nothing
through `nil`. -/
def HostRef.deref (w : SplunkHECWriter) : HostRef → Option String
  | .nil => none
  | .writerHostname => some w.hostname
  | .other content => some content

/-- A request that leaves the process. -/
inductive Call where
  | Get (url : String)
  | WriteEvent (e : Event)
  | WriteBatch (es : List Event)
  deriving DecidableEq, Repr

/-- The levels of the zap logger that the code uses. -/
inductive Level where
  | Debug
  | Info
  | Error
  | Fatal
  deriving DecidableEq, Repr

/-- One line written to the logger. -/
structure Entry where
  level : Level
  msg : String
  deriving DecidableEq, Repr

/-- The writer together with the calls it has made and the lines it has
logged, oldest first. -/
structure World where
  writer : SplunkHECWriter
  calls : List Call
  log : List Entry
  deriving DecidableEq, Repr

/-- A run-time panic of the Go program. -/
inductive Panic where
  | nilDereference
  | nonPositiveTickerInterval
  deriving DecidableEq, Repr

/-- Appends one line to the log. -/
def World.logLine (s : World) (lv : Level) (m : String) : World :=
  { s with log := s.log ++ [⟨lv, m⟩] }

/-- Records one outgoing call. -/
def World.call (s : World) (c : Call) : World :=
  { s with calls := s.calls ++ [c] }

/-- The batches handed to `client.WriteBatch`, oldest first. -/
def batchesOf : List Call → List (List Event)
  | [] => []
  | .WriteBatch es :: cs => es :: batchesOf cs
  | _ :: cs => batchesOf cs

/-- The events handed to `client.WriteEvent`, oldest first. -/
def singlesOf : List Call → List Event
  | [] => []
  | .WriteEvent e :: cs => e :: singlesOf cs
  | _ :: cs => singlesOf cs

/-! ## Configuration: `Provision` and `Validate` -/

/-- `SplunkHECLog.Provision` (main.go, lines 73-82): a zero flush interval is
replaced by ten seconds; the returned error is always `nil`. -/
def SplunkHECLog.Provision (l : SplunkHECLog) : SplunkHECLog × Error :=
  let l1 := if l.FlushInterval = 0 then { l with FlushInterval := 10 * Second } else l
  (l1, none)

/-- `SplunkHECLog.Validate` (main.go, lines 84-98).  The receiver is a pointer,
so the configuration after the call is returned next to the error. -/
def SplunkHECLog.Validate (l : SplunkHECLog) : SplunkHECLog × Error :=
  if l.Url = "" then (l, some "NO URL SET")
  else if l.Token = "" then (l, some "NO TOKEN SET")
  else if l.FlushInterval < 0 then (l, some "FLUSH_INTERVAL must be greater than 0s")
  else (l, none)

/-! ## The writer: `Write`, `flushEvents`, `Close` -/

/-- The critical section of `Write` (main.go, lines 112-114), run once for each
event of `es` in order: `prom.buffer = append(prom.buffer, event)`. -/
def appendLocked (es : List Event) (s : World) : World :=
  { s with writer := { s.writer with buffer := s.writer.buffer ++ es } }

/-- `SplunkHECWriter.Write` (main.go, lines 100-122).  `unmarshal p f` is what
`json.Unmarshal(p, &f)` leaves in `f` and returns; `sendErr` is what
`client.WriteEvent` returns for this call.  The result is the named pair
`(n, err)` at the bare `return`.  Calling a method of the `nil` client panics. -/
def Write (unmarshal : Bytes → Payload → Payload × Error) (sendErr : Error)
    (p : Bytes) (s : World) : Except Panic (World × Int × Error) :=
  let n : Int := 0
  let f : Payload := emptyMap
  let (f, uerr) := unmarshal p f
  let s1 := match uerr with
    | some _ => s.logLine .Error "Unmarshal failed on log"
    | none => s
  let event : Event := { Host := .writerHostname, Event := f }
  let s2 := appendLocked [event] s1
  match s2.writer.client with
  | none => .error .nilDereference
  | some _ =>
    let s3 := s2.call (.WriteEvent event)
    let err := sendErr
    let s4 := match err with
      | some _ => s3.logLine .Error "Failed to write to Splunk HEC"
      | none => s3
    .ok (s4, n, err)

/-- The events that concurrent `Write` calls append while one `flushEvents`
runs: `afterCheck` between the length test and the drain (lines 197-203),
`duringSend` between the drain and the end of the flush, that is before the
re-insertion when the send fails (lines 206-216). -/
structure Racing where
  afterCheck : List Event
  duringSend : List Event
  deriving DecidableEq, Repr

/-- No concurrent `Write`. -/
def Racing.none : Racing := ⟨[], []⟩

/-- `SplunkHECWriter.flushEvents` (main.go, lines 193-224).  `sendErr` is what
`client.WriteBatch` returns.  When the flush returns early the racing events
are appended all the same, by their own `Write` calls. -/
def flushEvents (sendErr : Error) (r : Racing) (s : World) : Except Panic World :=
  if s.writer.buffer.length = 0 then
    .ok (appendLocked (r.afterCheck ++ r.duringSend)
      (s.logLine .Debug "Buffer empty, no events flushed."))
  else
    let s1 := appendLocked r.afterCheck s
    let eventsToFlush := s1.writer.buffer
    let s2 := { s1 with writer := { s1.writer with buffer := [] } }
    match s2.writer.client with
    | none => .error .nilDereference
    | some _ =>
      let s3 := s2.call (.WriteBatch eventsToFlush)
      let s4 := appendLocked r.duringSend s3
      match sendErr with
      | some _ =>
        let s5 := s4.logLine .Error "Failed to flush events, re-appending events to buffer."
        .ok { s5 with writer := { s5.writer with buffer := eventsToFlush ++ s5.writer.buffer } }
      | none => .ok (s4.logLine .Debug "Events flushed.")

/-- `SplunkHECWriter.Close` (main.go, lines 124-141): `prom.ticker.Stop()`, a
method of a `nil` ticker panicking, then one `flushEvents`, then `return nil`. -/
def Close (sendErr : Error) (s : World) : Except Panic (World × Error) :=
  match s.writer.ticker with
  | none => .error .nilDereference
  | some t =>
    let s1 := { s with writer := { s.writer with ticker := some { t with running := false } } }
    match flushEvents sendErr Racing.none s1 with
    | .error e => .error e
    | .ok s2 => .ok (s2, none)

/-! ## Start-up: `OpenWriter`, `Open`, `startFlushTicker` -/

/-- The loop of `trimRightByte` in Go's `strings` package:
`for len(s) > 0 && s[len(s)-1] == c { s = s[:len(s)-1] }`, with the number of
iterations bounded by `fuel`. -/
def trimRightLoop (c : Char) : Nat → List Char → List Char
  | 0, s => s
  | fuel + 1, s => if s.getLast? = some c then trimRightLoop c fuel s.dropLast else s

/-- `strings.TrimRight(s, cutset)` for a cutset of the single ASCII character
`c`, which is the `trimRightByte` path of the library.  No byte of a
multi-byte UTF-8 sequence is an ASCII byte, so trimming characters and
trimming bytes agree. -/
def TrimRight (s : String) (c : Char) : String :=
  ⟨trimRightLoop c s.data.length s.data⟩

/-- How `Open` ended: it returned, or a `Fatal` call of the logger ended the
process. -/
inductive Exit where
  | returned (err : Error)
  | fatal
  deriving DecidableEq, Repr

/-- The end of `Open`: how it ended, the state it left, and the goroutine it
started with `go prom.startFlushTicker(interval)`, if it did (`flusher` is
that interval). -/
structure Outcome where
  exit : Exit
  world : World
  flusher : Option Duration
  deriving DecidableEq, Repr

/-- `SplunkHECWriter.startFlushTicker` (main.go, lines 183-190) up to its loop:
`time.NewTicker` panics on a non-positive period, else the ticker is stored.
Each later tick of a running ticker is one `flushEvents`.  Nothing else in the
repository assigns `prom.ticker`. -/
def startFlushTicker (interval : Duration) (s : World) : Except Panic World :=
  if interval ≤ 0 then .error .nonPositiveTickerInterval
  else .ok { s with writer := { s.writer with ticker := some ⟨interval, true⟩ } }

/-- `SplunkHECWriter.Open` (main.go, lines 143-180).  `get` is the answer of
`http.Get` (an error or the status code), `host` that of `os.Hostname`.  The
`Fatal` calls of the logger end the process.  The last statement starts
`startFlushTicker` in a goroutine of its own and `Open` returns `nil` at once:
at the return the ticker is still what it was. -/
def Open (get : Except String Int) (host : Except String String)
    (i : SplunkHECLog) (s : World) : Outcome :=
  let s1 := { s with writer := { s.writer with client := some ⟨i.Url, i.Token, "gzip"⟩ } }
  let healthCheckUrl := TrimRight i.Url '/' ++ SplunkCollectorHealthPath
  let s2 := s1.call (.Get healthCheckUrl)
  match get with
  | .error _ => ⟨.fatal, s2.logLine .Fatal "Health check failed", none⟩
  | .ok statusCode =>
    if statusCode ≠ StatusOK then ⟨.fatal, s2.logLine .Fatal "Health check failed.", none⟩
    else
      let s3 := s2.logLine .Info "Health check successful."
      match host with
      | .error _ => ⟨.fatal, s3.logLine .Fatal "Unable to determine hostname", none⟩
      | .ok hostname =>
        let s4 := { s3 with writer := { s3.writer with hostname := hostname } }
        ⟨.returned none, s4, some i.FlushInterval⟩

/-- The goroutine that `Open` started, run up to the loop of
`startFlushTicker`; the state is as `Open` left it when none was started. -/
def Outcome.runFlusher (o : Outcome) : Except Panic World :=
  match o.flusher with
  | none => .ok o.world
  | some interval => startFlushTicker interval o.world

/-- `SplunkHECLog.OpenWriter` (main.go, lines 52-62): the writer it returns,
with every field but the logger zero, and a `nil` error.  `Open` runs later, in
its own goroutine. -/
def SplunkHECLog.OpenWriter (_l : SplunkHECLog) : World × Error :=
  ({ writer := ⟨"", none, [], none⟩, calls := [], log := [] }, none)

/-! ## The Caddyfile dispenser

`caddyfile.Dispenser` belongs to Caddy, not to this repository.  The methods
that `UnmarshalCaddyfile` calls are embedded from Caddy's `dispenser.go`, for
tokens that come from plain or quoted text without imports (a token then is its
file, its line and its text). -/

/-- A lexer token: `caddyfile.Token`. -/
structure Token where
  File : String
  Line : Int
  Text : String
  deriving DecidableEq, Repr

/-- The struct `caddyfile.Dispenser`. -/
structure Dispenser where
  tokens : List Token
  cursor : Int
  nesting : Int
  deriving DecidableEq, Repr

/-- `caddyfile.NewDispenser`: the cursor starts before the first token. -/
def NewDispenser (tokens : List Token) : Dispenser := ⟨tokens, -1, 0⟩

/-- `Token.NumLineBreaks`: `strings.Count(t.Text, "\n")`. -/
def Token.NumLineBreaks (t : Token) : Int := (t.Text.data.count '\n' : Nat)

/-- `isNextOnNewLine(t1, t2)`: another file, or `t1` ends on an earlier line
than the one `t2` is on. -/
def isNextOnNewLine (t1 t2 : Token) : Bool :=
  if t1.File ≠ t2.File then true
  else decide (t1.Line + t1.NumLineBreaks < t2.Line)

namespace Dispenser

/-- `d.tokens[i]` for an index in range. -/
def tokenAt (d : Dispenser) (i : Int) : Option Token :=
  if i < 0 then none else d.tokens[i.toNat]?

/-- `Dispenser.Val`: the text of the current token, `""` off range. -/
def Val (d : Dispenser) : String :=
  if d.cursor < 0 ∨ d.cursor ≥ d.tokens.length then ""
  else match d.tokenAt d.cursor with
    | some t => t.Text
    | none => ""

/-- `Dispenser.Nesting`. -/
def Nesting (d : Dispenser) : Int := d.nesting

/-- `Dispenser.Next`. -/
def Next (d : Dispenser) : Bool × Dispenser :=
  if d.cursor < (d.tokens.length : Int) - 1 then
    (true, { d with cursor := d.cursor + 1 })
  else (false, d)

/-- `Dispenser.nextOnSameLine`. -/
def nextOnSameLine (d : Dispenser) : Bool × Dispenser :=
  if d.cursor < 0 then (true, { d with cursor := d.cursor + 1 })
  else if d.cursor ≥ (d.tokens.length : Int) - 1 then (false, d)
  else match d.tokenAt d.cursor, d.tokenAt (d.cursor + 1) with
    | some curr, some next =>
      if !isNextOnNewLine curr next then (true, { d with cursor := d.cursor + 1 })
      else (false, d)
    | _, _ => (false, d)

/-- `Dispenser.NextArg`. -/
def NextArg (d : Dispenser) : Bool × Dispenser :=
  let (same, d) := d.nextOnSameLine
  if !same then (false, d)
  else if d.Val = "\x7b" then (false, { d with cursor := d.cursor - 1 })
  else (true, d)

/-- `Dispenser.NextBlock`.  The two tests
`d.Val() == "}" && !d.nextOnSameLine()` and
`d.Val() == "{" && !d.nextOnSameLine()` are evaluated left to right, the second
only when the first is false, and every `nextOnSameLine` that runs may move
the cursor. -/
def NextBlock (d : Dispenser) (initialNestingLevel : Int) : Bool × Dispenser :=
  if d.nesting > initialNestingLevel then
    let (more, d) := d.Next
    if !more then (false, d)
    else
      let (closing, d) :=
        if d.Val = "\x7d" then
          let (same, d) := d.nextOnSameLine
          (!same, d)
        else (false, d)
      if closing then
        let d := { d with nesting := d.nesting - 1 }
        (decide (d.nesting > initialNestingLevel), d)
      else
        let (opening, d) :=
          if d.Val = "\x7b" then
            let (same, d) := d.nextOnSameLine
            (!same, d)
          else (false, d)
        let d := if opening then { d with nesting := d.nesting + 1 } else d
        (decide (d.nesting > initialNestingLevel), d)
  else
    let (same, d) := d.nextOnSameLine
    if !same then (false, d)
    else if d.Val ≠ "\x7b" then (false, { d with cursor := d.cursor - 1 })
    else
      let d := d.Next.2
      if d.Val = "\x7d" then (false, d)
      else (true, { d with nesting := d.nesting + 1 })

/-- `Dispenser.ArgErr`. -/
def ArgErr (d : Dispenser) : Error :=
  if d.Val = "\x7b" then some "unexpected token \x7b, expecting argument"
  else some ("wrong argument count or unexpected line ending after " ++ d.Val)

/-- `Dispenser.Errf`, the message already formatted. -/
def Errf (_d : Dispenser) (msg : String) : Error := some msg

end Dispenser

/-! ## `UnmarshalCaddyfile` -/

/-- The state when `UnmarshalCaddyfile` returns: the configuration, the
dispenser and the returned error. -/
abbrev Unmarshalled := SplunkHECLog × Dispenser × Error

/-- The body of the `switch d.Val()` in `UnmarshalCaddyfile` (caddyfile.go,
lines 22-49): `.error` when the body returns from the function, `.ok` when the
loop goes on.  `parseDuration` is `caddy.ParseDuration`. -/
def directive (parseDuration : String → Except String Duration)
    (l : SplunkHECLog) (d : Dispenser) : Except Unmarshalled (SplunkHECLog × Dispenser) :=
  if d.Val = "url" then
    let (ok, d) := d.NextArg
    if !ok then .error (l, d, d.ArgErr)
    else .ok ({ l with Url := d.Val }, d)
  else if d.Val = "token" then
    let (ok, d) := d.NextArg
    if !ok then .error (l, d, d.ArgErr)
    else if l.Token ≠ "" then
      .error (l, d, d.Errf ("token has already been specified: " ++ l.Token))
    else .ok ({ l with Token := d.Val }, d)
  else if d.Val = "flush_interval" then
    let (ok, d) := d.NextArg
    if !ok then .error (l, d, d.ArgErr)
    else match parseDuration d.Val with
      | .error e =>
        .error (l, d, d.Errf ("invalid flush_interval duration " ++ d.Val ++ ": " ++ e))
      | .ok flush_interval => .ok ({ l with FlushInterval := flush_interval }, d)
  else .ok (l, d)

/-- The loop `for nesting := d.Nesting(); d.NextBlock(nesting); { ... }` of
`UnmarshalCaddyfile`, at most `fuel` iterations; `none` when they do not
suffice. -/
def blockLoop (parseDuration : String → Except String Duration) (nesting : Int) :
    Nat → SplunkHECLog → Dispenser → Option Unmarshalled
  | 0, _, _ => none
  | fuel + 1, l, d =>
    let (more, d) := d.NextBlock nesting
    if !more then some (l, d, none)
    else match directive parseDuration l d with
      | .error r => some r
      | .ok (l, d) => blockLoop parseDuration nesting fuel l d

/-- `SplunkHECLog.UnmarshalCaddyfile` (caddyfile.go, lines 15-53).  Every
iteration of the loop moves the cursor forward, so one iteration for each token
and one more are enough. -/
def SplunkHECLog.UnmarshalCaddyfile (parseDuration : String → Except String Duration)
    (l : SplunkHECLog) (d : Dispenser) : Option Unmarshalled :=
  let (ok, d) := d.NextArg
  if !ok then some (l, d, d.ArgErr)
  else
    let nesting := d.Nesting
    blockLoop parseDuration nesting (d.tokens.length + 1) l d

/-! ## Laying out a block as tokens -/

/-- The tokens of one line of words that starts on line `line`: a word with
line breaks in it pushes the words after it down. -/
def layLine (file : String) : Int → List String → List Token
  | _, [] => []
  | line, w :: ws =>
    ⟨file, line, w⟩ :: layLine file (line + (⟨file, line, w⟩ : Token).NumLineBreaks) ws

/-- The line on which a line of words ends. -/
def lineEnd : Int → List String → Int
  | line, [] => line
  | line, w :: ws => lineEnd (line + (⟨"", line, w⟩ : Token).NumLineBreaks) ws

/-- The tokens of consecutive lines, the first starting on line `line`. -/
def layLines (file : String) : Int → List (List String) → List Token
  | _, [] => []
  | line, ws :: rest => layLine file line ws ++ layLines file (lineEnd line ws + 1) rest

/-- The line after the last of consecutive lines. -/
def linesEnd : Int → List (List String) → Int
  | line, [] => line
  | line, ws :: rest => linesEnd (lineEnd line ws + 1) rest

/-- The tokens of
`splunk_hec_log {`, one line for each element of `lines`, `}`. -/
def blockTokens (file : String) (line : Int) (lines : List (List String)) : List Token :=
  layLine file line ["splunk_hec_log", "\x7b"] ++ layLines file (line + 1) lines
    ++ [⟨file, linesEnd (line + 1) lines, "\x7d"⟩]

/-- The zero value of `SplunkHECLog`. -/
def SplunkHECLog.zero : SplunkHECLog := ⟨"", "", 0⟩

/-! ## Runs of several calls -/

/-- The event that `Write` builds from `p`: its `Host` is the address of the
writer's hostname field, its payload what the decoder leaves in the map that
starts empty and not `nil`. -/
def eventOf (unmarshal : Bytes → Payload → Payload × Error) (p : Bytes) : Event :=
  { Host := .writerHostname, Event := (unmarshal p (some [])).1 }

/-- Consecutive `Write` calls, each with the answer its `client.WriteEvent`
gets; the first panic ends the run. -/
def writeAll (unmarshal : Bytes → Payload → Payload × Error) :
    List (Bytes × Error) → World → Except Panic World
  | [], s => .ok s
  | (p, sendErr) :: rest, s =>
    match Write unmarshal sendErr p s with
    | .error e => .error e
    | .ok (s1, _, _) => writeAll unmarshal rest s1

/-- One flush with what surrounds it: the events appended by `Write` since the
flush before, the events appended while it runs, and the answer of
`client.WriteBatch`. -/
structure Round where
  before : List Event
  racing : Racing
  sendErr : Error
  deriving DecidableEq, Repr

/-- The events appended in a round, in the order of their appends. -/
def Round.events (r : Round) : List Event :=
  r.before ++ r.racing.afterCheck ++ r.racing.duringSend

/-- Consecutive rounds; the first panic ends the run. -/
def flushRounds : List Round → World → Except Panic World
  | [], s => .ok s
  | r :: rest, s =>
    match flushEvents r.sendErr r.racing (appendLocked r.before s) with
    | .error e => .error e
    | .ok s1 => flushRounds rest s1

/-! ## Reading a block directive by directive

The directives of a block are read off its tokens alone, with no
configuration at hand: which words stand where an option name is read, and
which word, if any, each option name takes as its argument. -/

/-- The dispenser whose cursor is on `x`, with `pre` before it and `post`
after it. -/
def Dispenser.focus (pre : List Token) (x : Token) (post : List Token) (n : Int) :
    Dispenser :=
  ⟨pre ++ x :: post, pre.length, n⟩

/-- The dispenser `d1` is `d` with the cursor moved forward or left in place:
same tokens, same nesting. -/
def Dispenser.Advanced (d d1 : Dispenser) : Prop :=
  d1.tokens = d.tokens ∧ d1.nesting = d.nesting ∧ d.cursor ≤ d1.cursor

/-- The names of the three options that `UnmarshalCaddyfile` knows. -/
def recognised (w : String) : Prop :=
  w = "url" ∨ w = "token" ∨ w = "flush_interval"

/-- Whether a word is an option name can be computed. -/
instance recognisedDecidable (w : String) : Decidable (recognised w) := by
  unfold recognised
  infer_instance

/-- A directive of a block: an option name and the argument on its line, if
there is one. -/
abbrev Directive := String × Option String

/-- The token after `x`, with what follows it, when it stands on the line of
`x`. -/
def sameLineNext (x : Token) : List Token → Option (Token × List Token)
  | [] => none
  | y :: post => if isNextOnNewLine x y then none else some (y, post)

/-- From a token inside the block, followed by `post`, to the next place where
an option name is read, with the nesting there; `none` at the end of the
block or of the tokens.  A brace counts for the nesting only as the last token of its line,
and a token that follows a brace on its line is where reading goes on. -/
def advance (init : Int) (post : List Token) (n : Int) :
    Option (Token × List Token × Int) :=
  match post with
  | [] => none
  | y :: post1 =>
    if y.Text = "\x7d" then
      match sameLineNext y post1 with
      | none => if n - 1 > init then some (y, post1, n - 1) else none
      | some (z, post2) =>
        if z.Text = "\x7b" then
          match sameLineNext z post2 with
          | none => if n + 1 > init then some (z, post2, n + 1) else none
          | some (u, post3) => if n > init then some (u, post3, n) else none
        else if n > init then some (z, post2, n) else none
    else if y.Text = "\x7b" then
      match sameLineNext y post1 with
      | none => if n + 1 > init then some (y, post1, n + 1) else none
      | some (z, post2) => if n > init then some (z, post2, n) else none
    else if n > init then some (y, post1, n) else none

/-- The directive read at the token `x`, if `x` is an option name, and the
tokens left after it: those after the argument when the option has one (a word
on its line other than an opening brace), else those after `x`. -/
def visit (x : Token) (post : List Token) : Option Directive × List Token :=
  if recognised x.Text then
    match sameLineNext x post with
    | none => (some (x.Text, none), post)
    | some (a, post1) =>
      if a.Text = "\x7b" then (some (x.Text, none), post)
      else (some (x.Text, some a.Text), post1)
  else (none, post)

/-- The directives from a token inside the block, followed by `post`, to the
end of the block, at most `fuel` places read. -/
def scanLoop (init : Int) : Nat → List Token → Int → List Directive
  | 0, _, _ => []
  | fuel + 1, post, n =>
    match advance init post n with
    | none => []
    | some (x1, post1, n1) =>
      match visit x1 post1 with
      | (none, post2) => scanLoop init fuel post2 n1
      | (some dir, post2) => dir :: scanLoop init fuel post2 n1

/-- The directives of the block that a list of tokens holds, in order: none
unless the tokens start with a word other than an opening brace followed on
its line by an opening brace; then reading starts at the token after that
brace, unless it is a closing brace.  One place is read for each token at
most. -/
def directives (tokens : List Token) : List Directive :=
  match tokens with
  | hdr :: brace :: body =>
    if hdr.Text = "\x7b" then []
    else if isNextOnNewLine hdr brace then []
    else if brace.Text ≠ "\x7b" then []
    else match body with
      | [] => []
      | y :: post =>
        if y.Text = "\x7d" then []
        else match visit y post with
          | (none, post2) => scanLoop 0 tokens.length post2 1
          | (some dir, post2) => dir :: scanLoop 0 tokens.length post2 1
  | _ => []

/-- What the `switch` of `UnmarshalCaddyfile` does with one directive: the
configuration after it and the error it raises. -/
def runDirective (parseDuration : String → Except String Duration) (l : SplunkHECLog) :
    Directive → SplunkHECLog × Error
  | (name, none) =>
    (l, some ("wrong argument count or unexpected line ending after " ++ name))
  | (name, some arg) =>
    if name = "url" then ({ l with Url := arg }, none)
    else if name = "token" then
      if l.Token ≠ "" then (l, some ("token has already been specified: " ++ l.Token))
      else ({ l with Token := arg }, none)
    else if name = "flush_interval" then
      match parseDuration arg with
      | .error e => (l, some ("invalid flush_interval duration " ++ arg ++ ": " ++ e))
      | .ok v => ({ l with FlushInterval := v }, none)
    else (l, none)

/-- The effect of consecutive directives, up to the first error. -/
def runDirectives (parseDuration : String → Except String Duration) :
    SplunkHECLog → List Directive → SplunkHECLog × Error
  | l, [] => (l, none)
  | l, dir :: rest =>
    match runDirective parseDuration l dir with
    | (l1, none) => runDirectives parseDuration l1 rest
    | (l1, some e) => (l1, some e)

/-- The error that `UnmarshalCaddyfile` returns before it reads any directive:
its first `NextArg` fails when the first token is an opening brace. -/
def headerError (tokens : List Token) : Error :=
  match tokens with
  | t :: _ =>
    if t.Text = "\x7b" then some "wrong argument count or unexpected line ending after "
    else none
  | [] => none

/-- A directive that raises no error of its own: it has an argument, and the
argument of `flush_interval` is a duration that parses. -/
def DirectiveOk (parseDuration : String → Except String Duration) (dir : Directive) : Prop :=
  ∃ arg, dir.2 = some arg
    ∧ (dir.1 = "flush_interval" → (parseDuration arg).toBool = true)

/-- Whether a directive raises no error of its own can be computed. -/
instance directiveOkDecidable (parseDuration : String → Except String Duration)
    (dir : Directive) : Decidable (DirectiveOk parseDuration dir) :=
  match dir with
  | (_, none) => isFalse (by rintro ⟨arg, h, _⟩; simp at h)
  | (name, some arg) =>
    decidable_of_iff (name = "flush_interval" → (parseDuration arg).toBool = true)
      (by
        constructor
        · intro h; exact ⟨arg, rfl, h⟩
        · rintro ⟨a, ha, h⟩
          simp only [Option.some.injEq] at ha
          subst ha
          exact h)

/-! # Theorems -/

/-! ## Configuration -/

/-- C5: `Validate` returns an error exactly when `Url` is empty, `Token` is
empty or `FlushInterval` is negative; it returns `nil` when `Url` and `Token`
are non-empty and `FlushInterval` is at least 0; the configuration is the same
after the call. -/
theorem Validate_error_iff (l : SplunkHECLog) :
    (l.Validate.2 ≠ none ↔ (l.Url = "" ∨ l.Token = "" ∨ l.FlushInterval < 0))
    ∧ (l.Url ≠ "" ∧ l.Token ≠ "" ∧ 0 ≤ l.FlushInterval → l.Validate.2 = none)
    ∧ l.Validate.1 = l := by
  unfold SplunkHECLog.Validate
  by_cases hu : l.Url = ""
  · simp [hu]
  · by_cases ht : l.Token = ""
    · simp [hu, ht]
    · by_cases hf : l.FlushInterval < 0
      · simp [hu, ht, hf]
      · simp [hu, ht, hf]

/-- C5, at the configuration with a URL, a token and a period of 5 s. -/
theorem Validate_error_iff_witness :
    (SplunkHECLog.mk "https://splunk:8088" "tok" (5 * Second)).Validate.2 = none :=
  (Validate_error_iff ⟨"https://splunk:8088", "tok", 5 * Second⟩).2.1
    ⟨by decide, by decide, by decide⟩

/-- C4 as stated fails: a configuration with a URL, a token and a flush
interval of 0 passes `Validate`. -/
theorem Validate_zero_interval_accepted :
    (SplunkHECLog.mk "https://splunk:8088" "tok" 0).FlushInterval = 0
    ∧ (SplunkHECLog.mk "https://splunk:8088" "tok" 0).Validate.2 = none := by
  decide

/-- C4, amended: for a configuration whose flush interval is 0, `Validate`
returns an error only when `Url` or `Token` is empty, and `Provision` replaces
the interval by ten seconds (10000000000 ns), with which the configuration
validates the same way and `Open`, after a health check answered with 200 and
a hostname lookup, returns `nil` having started the flusher, which starts the
flush ticker with a period of ten seconds. -/
theorem Validate_zero_interval (l : SplunkHECLog) (h0 : l.FlushInterval = 0) :
    (l.Validate.2 ≠ none ↔ (l.Url = "" ∨ l.Token = ""))
    ∧ l.Provision.1 = { l with FlushInterval := 10 * Second }
    ∧ l.Provision.1.FlushInterval = 10000000000
    ∧ l.Provision.2 = none
    ∧ (l.Provision.1.Validate.2 ≠ none ↔ (l.Url = "" ∨ l.Token = ""))
    ∧ (∀ (h : String) (s : World),
        (Open (.ok 200) (.ok h) l.Provision.1 s).exit = .returned none
        ∧ (Open (.ok 200) (.ok h) l.Provision.1 s).flusher = some (10 * Second)
        ∧ ∃ w, (Open (.ok 200) (.ok h) l.Provision.1 s).runFlusher = .ok w
            ∧ w.writer.ticker = some ⟨10 * Second, true⟩) := by
  have hp : l.Provision.1 = { l with FlushInterval := 10 * Second } := by
    simp [SplunkHECLog.Provision, h0]
  refine ⟨?_, hp, ?_, rfl, ?_, ?_⟩
  · unfold SplunkHECLog.Validate
    by_cases hu : l.Url = ""
    · simp [hu]
    · by_cases ht : l.Token = "" <;> simp [hu, ht, h0]
  · rw [hp]; simp [Second]
  · rw [hp]
    unfold SplunkHECLog.Validate
    by_cases hu : l.Url = ""
    · simp [hu]
    · by_cases ht : l.Token = "" <;> simp [hu, ht, Second]
  · intro h s
    rw [hp]
    simp [Open, Outcome.runFlusher, startFlushTicker, World.call, World.logLine, Second,
      StatusOK]

/-- C4 amended, at a configuration with a URL, a token and interval 0. -/
theorem Validate_zero_interval_witness :
    (SplunkHECLog.mk "https://splunk:8088" "tok" 0).Provision.1
      = ⟨"https://splunk:8088", "tok", 10 * Second⟩
    ∧ ((SplunkHECLog.mk "https://splunk:8088" "tok" 0).Provision.1.Validate.2 ≠ none
        ↔ ("https://splunk:8088" = "" ∨ "tok" = "")) :=
  ⟨(Validate_zero_interval ⟨"https://splunk:8088", "tok", 0⟩ rfl).2.1,
   (Validate_zero_interval ⟨"https://splunk:8088", "tok", 0⟩ rfl).2.2.2.2.1⟩

/-! ## The writer -/

theorem batchesOf_append (xs ys : List Call) :
    batchesOf (xs ++ ys) = batchesOf xs ++ batchesOf ys := by
  induction xs with
  | nil => rfl
  | cons c cs ih => cases c <;> simp [batchesOf, ih]

theorem singlesOf_append (xs ys : List Call) :
    singlesOf (xs ++ ys) = singlesOf xs ++ singlesOf ys := by
  induction xs with
  | nil => rfl
  | cons c cs ih => cases c <;> simp [singlesOf, ih]

/-- What `Write` does on a writer whose client is set. -/
theorem Write_ok (unmarshal : Bytes → Payload → Payload × Error) (sendErr : Error)
    (p : Bytes) (s : World) (c : HEC) (hc : s.writer.client = some c) :
    ∃ s1, Write unmarshal sendErr p s = .ok (s1, 0, sendErr)
      ∧ s1.writer = { s.writer with buffer := s.writer.buffer ++ [eventOf unmarshal p] }
      ∧ s1.calls = s.calls ++ [.WriteEvent (eventOf unmarshal p)] := by
  unfold Write
  simp only [emptyMap]
  cases hu : unmarshal p (some []) with
  | mk f uerr =>
    cases uerr <;> cases sendErr <;>
      simp [appendLocked, World.logLine, World.call, hc, eventOf, hu]

/-- What a flush does on a non-empty buffer and a set client. -/
theorem flushEvents_nonempty (sendErr : Error) (r : Racing) (s : World) (c : HEC)
    (hc : s.writer.client = some c) (hb : s.writer.buffer ≠ []) :
    ∃ s1, flushEvents sendErr r s = .ok s1
      ∧ s1.calls = s.calls ++ [.WriteBatch (s.writer.buffer ++ r.afterCheck)]
      ∧ s1.writer = { s.writer with buffer :=
          if sendErr = none then r.duringSend
          else (s.writer.buffer ++ r.afterCheck) ++ r.duringSend } := by
  unfold flushEvents
  have hl : s.writer.buffer.length ≠ 0 := by
    intro h; exact hb (List.length_eq_zero.mp h)
  cases sendErr <;>
    simp [hl, appendLocked, World.logLine, World.call, hc]

/-- What a flush does on an empty buffer. -/
theorem flushEvents_empty (sendErr : Error) (r : Racing) (s : World)
    (hb : s.writer.buffer = []) :
    ∃ s1, flushEvents sendErr r s = .ok s1
      ∧ s1.calls = s.calls
      ∧ s1.writer = { s.writer with buffer := r.afterCheck ++ r.duringSend } := by
  unfold flushEvents
  simp [hb, appendLocked, World.logLine]

/-- C6: on a writer whose buffer is empty, `flushEvents` returns without any
call leaving the process (no `client.WriteBatch` in particular) and leaves
every field of the writer as it was; it logs one debug line. -/
theorem flushEvents_empty_noop (sendErr : Error) (s : World)
    (hb : s.writer.buffer = []) :
    ∃ s1, flushEvents sendErr Racing.none s = .ok s1
      ∧ s1.calls = s.calls
      ∧ s1.writer = s.writer
      ∧ s1.log = s.log ++ [⟨.Debug, "Buffer empty, no events flushed."⟩] := by
  obtain ⟨⟨hn, cl, buf, tk⟩, calls, log⟩ := s
  simp only at hb
  subst hb
  simp [flushEvents, appendLocked, World.logLine, Racing.none]

/-- C6, at a freshly opened writer whose client is not even set. -/
theorem flushEvents_empty_noop_witness :
    ∃ s1, flushEvents (some "connection refused") Racing.none
        ⟨⟨"", none, [], none⟩, [], []⟩ = .ok s1
      ∧ s1.calls = []
      ∧ s1.writer = ⟨"", none, [], none⟩
      ∧ s1.log = [] ++ [⟨.Debug, "Buffer empty, no events flushed."⟩] :=
  flushEvents_empty_noop (some "connection refused") ⟨⟨"", none, [], none⟩, [], []⟩ rfl

/-- C3 as stated fails: when `client.WriteEvent` fails, `Write` returns that
error to its caller. -/
theorem Write_returns_send_error :
    Write (fun _ f => (f, none)) (some "connection refused") []
        ⟨⟨"web-1", some ⟨"https://splunk:8088", "tok", "gzip"⟩, [], none⟩, [], []⟩
      = .ok (⟨⟨"web-1", some ⟨"https://splunk:8088", "tok", "gzip"⟩,
                [⟨.writerHostname, emptyMap⟩], none⟩,
              [.WriteEvent ⟨.writerHostname, emptyMap⟩],
              [⟨.Error, "Failed to write to Splunk HEC"⟩]⟩,
            0, some "connection refused") := by
  rfl

/-- C3, amended: on a writer whose client is set, `Write` returns with `n = 0`
and with exactly the error of `client.WriteEvent`: `nil` when the send
succeeded, the send error (which is logged too) when it failed; an error of
`json.Unmarshal` is logged and never returned. -/
theorem Write_returns_WriteEvent_result (unmarshal : Bytes → Payload → Payload × Error)
    (sendErr : Error) (p : Bytes) (s : World) (c : HEC) (hc : s.writer.client = some c) :
    ∃ s1, Write unmarshal sendErr p s = .ok (s1, 0, sendErr)
      ∧ (sendErr ≠ none →
          s1.log.getLast? = some ⟨.Error, "Failed to write to Splunk HEC"⟩)
      ∧ ((unmarshal p emptyMap).2 ≠ none →
          ⟨.Error, "Unmarshal failed on log"⟩ ∈ s1.log) := by
  unfold Write
  cases hu : unmarshal p emptyMap with
  | mk f uerr =>
    cases uerr <;> cases sendErr <;>
      simp [appendLocked, World.logLine, World.call, hc, hu]

/-- C3 amended, at a decoder that fails and a send that succeeds: `nil`. -/
theorem Write_returns_WriteEvent_result_witness :
    ∃ s1, Write (fun _ f => (f, some "invalid character")) none [0x6f]
        ⟨⟨"web-1", some ⟨"https://splunk:8088", "tok", "gzip"⟩, [], none⟩, [], []⟩
          = .ok (s1, 0, none)
      ∧ ⟨.Error, "Unmarshal failed on log"⟩ ∈ s1.log := by
  obtain ⟨s1, h1, _, hlog⟩ :=
    Write_returns_WriteEvent_result (fun _ f => (f, some "invalid character")) none [0x6f]
      ⟨⟨"web-1", some ⟨"https://splunk:8088", "tok", "gzip"⟩, [], none⟩, [], []⟩
      ⟨"https://splunk:8088", "tok", "gzip"⟩ rfl
  exact ⟨s1, h1, hlog (by simp)⟩

/-- C8, the failing input: `Write` on the writer that `OpenWriter` has just
returned, whose client the goroutine running `Open` has not assigned yet,
appends its event and then panics on the `nil` client instead of sending the
event and returning; so does `Write` in every state whose client is `nil`. -/
theorem Write_before_client_panics (unmarshal : Bytes → Payload → Payload × Error)
    (sendErr : Error) (p : Bytes) (l : SplunkHECLog) :
    Write unmarshal sendErr p l.OpenWriter.1 = .error .nilDereference
    ∧ ∀ s : World, s.writer.client = none →
        Write unmarshal sendErr p s = .error .nilDereference := by
  have key : ∀ s : World, s.writer.client = none →
      Write unmarshal sendErr p s = .error .nilDereference := by
    intro s hs
    unfold Write
    cases hu : unmarshal p emptyMap with
    | mk f uerr => cases uerr <;> simp [appendLocked, World.logLine, hs, hu]
  exact ⟨key _ rfl, key⟩

/-- Once the client is set, `Write` builds one event whose `Host` is the
address of the writer's hostname field and whose payload is what
`json.Unmarshal` left in the map that started empty and not `nil` (so the
empty map `some []` when the decoder rejects `p` and leaves its target as it
was); the buffer becomes the old buffer followed by that event, the other
fields stay; one `client.WriteEvent` of that event is made; and the next
flush hands the event to `client.WriteBatch` again, in the batch of the old
buffer followed by it. -/
theorem Write_with_client (unmarshal : Bytes → Payload → Payload × Error)
    (sendErr : Error) (p : Bytes) (s : World) (c : HEC) (hc : s.writer.client = some c) :
    ∃ s1, Write unmarshal sendErr p s
        = .ok (s1, 0, sendErr)
      ∧ HostRef.deref s1.writer .writerHostname = some s.writer.hostname
      ∧ (∀ e, (∀ f, unmarshal p f = (f, some e)) →
          s1.writer.buffer = s.writer.buffer ++ [⟨.writerHostname, some []⟩])
      ∧ s1.writer = { s.writer with
          buffer := s.writer.buffer ++ [⟨.writerHostname, (unmarshal p (some [])).1⟩] }
      ∧ s1.calls = s.calls ++ [.WriteEvent ⟨.writerHostname, (unmarshal p (some [])).1⟩]
      ∧ ∀ batchErr, ∃ s2, flushEvents batchErr Racing.none s1 = .ok s2
          ∧ s2.calls = s.calls ++ [.WriteEvent ⟨.writerHostname, (unmarshal p (some [])).1⟩,
              .WriteBatch (s.writer.buffer ++ [⟨.writerHostname, (unmarshal p (some [])).1⟩])] := by
  obtain ⟨s1, h1, hw, hcalls⟩ := Write_ok unmarshal sendErr p s c hc
  simp only [eventOf] at hw hcalls
  refine ⟨s1, h1, ?_, ?_, hw, hcalls, ?_⟩
  · simp [HostRef.deref, hw]
  · intro e he
    rw [hw, he]
  · intro batchErr
    have hc1 : s1.writer.client = some c := by simp [hw, hc]
    have hb1 : s1.writer.buffer ≠ [] := by simp [hw]
    obtain ⟨s2, h2, hcalls2, _⟩ := flushEvents_nonempty batchErr Racing.none s1 c hc1 hb1
    refine ⟨s2, h2, ?_⟩
    simp [hcalls2, hcalls, hw, Racing.none]

/-- C7, the failing input: `Close` on the writer that `OpenWriter` has just
returned, whose ticker `startFlushTicker` has not assigned yet, panics on the
`nil` ticker instead of flushing and returning `nil`; so does `Close` in every
state whose ticker is `nil`, whatever is buffered. -/
theorem Close_before_ticker_panics (l : SplunkHECLog) (sendErr : Error) :
    Close sendErr l.OpenWriter.1 = .error .nilDereference
    ∧ ∀ s : World, s.writer.ticker = none → Close sendErr s = .error .nilDereference := by
  refine ⟨rfl, ?_⟩
  intro s hs
  unfold Close
  rw [hs]

/-- Once the ticker and the client are set, `Close` stops the ticker, runs one
flush and returns `nil`: the buffer is empty after a successful send and the
buffer from before after a failed one. -/
theorem Close_started (sendErr : Error) (s : World) (c : HEC) (t : Ticker)
    (hc : s.writer.client = some c) (ht : s.writer.ticker = some t) :
    ∃ s1, Close sendErr s = .ok (s1, none)
      ∧ s1.writer.ticker = some { t with running := false }
      ∧ s1.writer.buffer = (if sendErr = none then [] else s.writer.buffer)
      ∧ batchesOf s1.calls = batchesOf s.calls
          ++ (if s.writer.buffer = [] then [] else [s.writer.buffer]) := by
  obtain ⟨⟨hn, cl, buf, tk⟩, calls, log⟩ := s
  simp only at hc ht
  subst hc ht
  cases buf with
  | nil => cases sendErr <;> simp [Close, flushEvents, appendLocked, World.logLine, Racing.none]
  | cons e es =>
    cases sendErr <;>
      simp [Close, flushEvents, appendLocked, World.logLine, World.call, Racing.none,
        batchesOf_append, batchesOf]

/-- The state after consecutive `Write` calls on a writer whose client is set. -/
theorem writeAll_ok (unmarshal : Bytes → Payload → Payload × Error)
    (ws : List (Bytes × Error)) (s : World) (c : HEC) (hc : s.writer.client = some c) :
    ∃ s1, writeAll unmarshal ws s = .ok s1
      ∧ s1.writer = { s.writer with
          buffer := s.writer.buffer ++ ws.map (fun w => eventOf unmarshal w.1) }
      ∧ batchesOf s1.calls = batchesOf s.calls
      ∧ singlesOf s1.calls
          = singlesOf s.calls ++ ws.map (fun w => eventOf unmarshal w.1) := by
  induction ws generalizing s with
  | nil => exact ⟨s, rfl, by simp, rfl, by simp⟩
  | cons w rest ih =>
    obtain ⟨p, sendErr⟩ := w
    obtain ⟨s1, h1, hw, hcalls⟩ := Write_ok unmarshal sendErr p s c hc
    have hc1 : s1.writer.client = some c := by simp [hw, hc]
    obtain ⟨s2, h2, hw2, hb2, hs2⟩ := ih s1 hc1
    refine ⟨s2, ?_, ?_, ?_, ?_⟩
    · simp [writeAll, h1, h2]
    · simp [hw2, hw]
    · simp [hb2, hcalls, batchesOf_append, batchesOf]
    · simp [hs2, hcalls, singlesOf_append, singlesOf]

/-- C2: after `Write` calls E1..En on a writer with an empty buffer and a set
client, each with any outcome of its own immediate send, one `flushEvents`
whose batch send succeeds hands to `client.WriteBatch` exactly the list of the
n events in call order, as its only batch (no batch when n = 0), and leaves in
the buffer only the events appended after the drain. -/
theorem writes_then_flush (unmarshal : Bytes → Payload → Payload × Error)
    (ws : List (Bytes × Error)) (during : List Event) (s : World) (c : HEC)
    (hc : s.writer.client = some c) (hb : s.writer.buffer = []) :
    ∃ s1 s2, writeAll unmarshal ws s = .ok s1
      ∧ s1.writer.buffer = ws.map (fun w => eventOf unmarshal w.1)
      ∧ flushEvents none ⟨[], during⟩ s1 = .ok s2
      ∧ batchesOf s2.calls = batchesOf s.calls
          ++ (if ws = [] then [] else [ws.map (fun w => eventOf unmarshal w.1)])
      ∧ s2.writer.buffer = during := by
  obtain ⟨s1, h1, hw, hb1, _⟩ := writeAll_ok unmarshal ws s c hc
  have hbuf : s1.writer.buffer = ws.map (fun w => eventOf unmarshal w.1) := by
    simp [hw, hb]
  have hc1 : s1.writer.client = some c := by simp [hw, hc]
  by_cases hws : ws = []
  · subst hws
    obtain ⟨s2, h2, hcalls2, hw2⟩ := flushEvents_empty none ⟨[], during⟩ s1 (by simpa using hbuf)
    exact ⟨s1, s2, h1, hbuf, h2, by simp [hcalls2, hb1], by simp [hw2]⟩
  · have hne : s1.writer.buffer ≠ [] := by simpa [hbuf] using hws
    obtain ⟨s2, h2, hcalls2, hw2⟩ := flushEvents_nonempty none ⟨[], during⟩ s1 c hc1 hne
    refine ⟨s1, s2, h1, hbuf, h2, ?_, by simp [hw2]⟩
    simp [hcalls2, batchesOf_append, batchesOf, hb1, hbuf, hws]

/-- C2, at two lines written to a fresh buffer, the first immediate send
failing. -/
theorem writes_then_flush_witness :
    ∃ s1 s2, writeAll (fun p f => (if p = [0x61] then some [("msg", "\"a\"")] else f, none))
          [([0x61], some "timeout"), ([0x62], none)]
          ⟨⟨"web-1", some ⟨"https://splunk:8088", "tok", "gzip"⟩, [], none⟩, [], []⟩ = .ok s1
      ∧ flushEvents none ⟨[], []⟩ s1 = .ok s2
      ∧ batchesOf s2.calls
          = [[⟨.writerHostname, some [("msg", "\"a\"")]⟩, ⟨.writerHostname, emptyMap⟩]]
      ∧ s2.writer.buffer = [] := by
  obtain ⟨s1, s2, h1, _, h2, hb, hbuf⟩ :=
    writes_then_flush (fun p f => (if p = [0x61] then some [("msg", "\"a\"")] else f, none))
      [([0x61], some "timeout"), ([0x62], none)] []
      ⟨⟨"web-1", some ⟨"https://splunk:8088", "tok", "gzip"⟩, [], none⟩, [], []⟩
      ⟨"https://splunk:8088", "tok", "gzip"⟩ rfl rfl
  exact ⟨s1, s2, h1, h2, by rw [hb]; decide, hbuf⟩

/-- The state after consecutive rounds whose batch sends all fail. -/
theorem flushRounds_failed (rounds : List Round) (s : World) (c : HEC)
    (hc : s.writer.client = some c) (hb : s.writer.buffer ≠ [])
    (hfail : ∀ r ∈ rounds, r.sendErr ≠ none) :
    ∃ s1, flushRounds rounds s = .ok s1
      ∧ s1.writer = { s.writer with
          buffer := s.writer.buffer ++ (rounds.map Round.events).flatten }
      ∧ (batchesOf s1.calls).length = (batchesOf s.calls).length + rounds.length := by
  induction rounds generalizing s with
  | nil => exact ⟨s, rfl, by simp, by simp⟩
  | cons r rest ih =>
    have hr : r.sendErr ≠ none := hfail r (List.mem_cons_self _ _)
    have hc0 : (appendLocked r.before s).writer.client = some c := by simp [appendLocked, hc]
    have hb0 : (appendLocked r.before s).writer.buffer ≠ [] := by simp [appendLocked, hb]
    obtain ⟨s1, h1, hcalls1, hw1⟩ :=
      flushEvents_nonempty r.sendErr r.racing (appendLocked r.before s) c hc0 hb0
    have hc1 : s1.writer.client = some c := by simp [hw1, appendLocked, hc]
    have hb1 : s1.writer.buffer ≠ [] := by simp [hw1, appendLocked, hr, hb]
    obtain ⟨s2, h2, hw2, hn2⟩ :=
      ih s1 hc1 hb1 (fun x hx => hfail x (List.mem_cons_of_mem _ hx))
    refine ⟨s2, ?_, ?_, ?_⟩
    · simp [flushRounds, h1, h2]
    · simp [hw2, hw1, appendLocked, hr, Round.events]
    · simp [hn2, hcalls1, batchesOf_append, batchesOf, appendLocked]
      omega

/-- C1: let the buffer hold B, not empty, on a writer whose client is set, and
let N flushes (any N, so every N >= 1) run one after the other, the batch send
failing every time, while `Write` appends events before, between and during
them.  Then every flush does send a batch, and the buffer after the N-th flush
is B followed by all the appended events in the order of their appends.  For
one failed flush: the batch is B with what was appended before the drain, and
the buffer afterwards is that batch followed by what was appended during the
send. -/
theorem failed_flushes_keep_order (rounds : List Round) (s : World) (c : HEC)
    (hc : s.writer.client = some c) (hb : s.writer.buffer ≠ [])
    (hfail : ∀ r ∈ rounds, r.sendErr ≠ none) :
    (∃ s1, flushRounds rounds s = .ok s1
      ∧ s1.writer.buffer = s.writer.buffer ++ (rounds.map Round.events).flatten
      ∧ (batchesOf s1.calls).length = (batchesOf s.calls).length + rounds.length)
    ∧ (∀ (err : String) (r : Racing), ∃ s1, flushEvents (some err) r s = .ok s1
      ∧ batchesOf s1.calls = batchesOf s.calls ++ [s.writer.buffer ++ r.afterCheck]
      ∧ s1.writer.buffer = (s.writer.buffer ++ r.afterCheck) ++ r.duringSend) := by
  constructor
  · obtain ⟨s1, h1, hw, hn⟩ := flushRounds_failed rounds s c hc hb hfail
    exact ⟨s1, h1, by simp [hw], hn⟩
  · intro err r
    obtain ⟨s1, h1, hcalls, hw⟩ := flushEvents_nonempty (some err) r s c hc hb
    exact ⟨s1, h1, by simp [hcalls, batchesOf_append, batchesOf], by simp [hw]⟩

/-- C1, at the buffer [a, b] with two failed flushes: c is appended during the
first send, d between the two flushes. -/
theorem failed_flushes_keep_order_witness :
    ∃ s1, flushRounds
        [⟨[], ⟨[], [⟨.writerHostname, some [("msg", "c")]⟩]⟩, some "timeout"⟩,
         ⟨[⟨.writerHostname, some [("msg", "d")]⟩], ⟨[], []⟩, some "timeout"⟩]
        ⟨⟨"web-1", some ⟨"https://splunk:8088", "tok", "gzip"⟩,
          [⟨.writerHostname, some [("msg", "a")]⟩, ⟨.writerHostname, some [("msg", "b")]⟩],
          none⟩, [], []⟩ = .ok s1
      ∧ s1.writer.buffer
          = [⟨.writerHostname, some [("msg", "a")]⟩, ⟨.writerHostname, some [("msg", "b")]⟩,
             ⟨.writerHostname, some [("msg", "c")]⟩, ⟨.writerHostname, some [("msg", "d")]⟩]
      ∧ (batchesOf s1.calls).length = 2 := by
  obtain ⟨⟨s1, h1, hbuf, hn⟩, _⟩ := failed_flushes_keep_order
    [⟨[], ⟨[], [⟨.writerHostname, some [("msg", "c")]⟩]⟩, some "timeout"⟩,
     ⟨[⟨.writerHostname, some [("msg", "d")]⟩], ⟨[], []⟩, some "timeout"⟩]
    ⟨⟨"web-1", some ⟨"https://splunk:8088", "tok", "gzip"⟩,
      [⟨.writerHostname, some [("msg", "a")]⟩, ⟨.writerHostname, some [("msg", "b")]⟩],
      none⟩, [], []⟩
    ⟨"https://splunk:8088", "tok", "gzip"⟩ rfl (by simp) (by simp)
  exact ⟨s1, h1, by rw [hbuf]; rfl, by rw [hn]; rfl⟩

/-! ## Start-up -/

/-- The loop of `trimRightByte` only removes copies of `c` from the end. -/
theorem trimRightLoop_append (c : Char) (fuel : Nat) (s : List Char) :
    ∃ k, s = trimRightLoop c fuel s ++ List.replicate k c := by
  induction fuel generalizing s with
  | zero => exact ⟨0, by simp [trimRightLoop]⟩
  | succ n ih =>
    by_cases h : s.getLast? = some c
    · obtain ⟨k, hk⟩ := ih s.dropLast
      refine ⟨k + 1, ?_⟩
      have hs : s.dropLast ++ [c] = s := List.dropLast_append_getLast? c (by simp [h])
      simp only [trimRightLoop, h, if_true]
      rw [List.replicate_succ', ← List.append_assoc, ← hk, hs]
    · exact ⟨0, by simp [trimRightLoop, h]⟩

/-- With one iteration for each character the loop of `trimRightByte` ends by
its own test: the result does not end in `c`. -/
theorem trimRightLoop_last (c : Char) (fuel : Nat) (s : List Char) (h : s.length ≤ fuel) :
    (trimRightLoop c fuel s).getLast? ≠ some c := by
  induction fuel generalizing s with
  | zero =>
    have : s = [] := List.length_eq_zero.mp (Nat.le_zero.mp h)
    simp [trimRightLoop, this]
  | succ n ih =>
    by_cases hl : s.getLast? = some c
    · simp only [trimRightLoop, hl, if_true]
      apply ih
      simp only [List.length_dropLast]
      omega
    · simp [trimRightLoop, hl]

/-- C9: `Open` makes exactly one call, the GET of `Url` without its trailing
`/` characters (all of them, and nothing else, removed) followed by
`/services/collector/health`.  If the answer is a transport error or a status
other than 200, `Open` ends in the fatal outcome without having started the
flusher, and the ticker stays as it was, also once every goroutine that `Open`
started has run.  If the flusher was started, the answer was 200 and the
hostname lookup succeeded, and the writer's hostname is the name looked up.
After a 200 and a successful lookup `Open` stores the name, starts the flusher
with the configured interval and returns `nil`; the flusher then starts the
ticker when the interval is positive.  `Open` itself never touches the
ticker. -/
theorem Open_probe_gates_flusher (get : Except String Int) (host : Except String String)
    (i : SplunkHECLog) (s : World) :
    (∃ k, i.Url.data = (TrimRight i.Url '/').data ++ List.replicate k '/'
        ∧ (TrimRight i.Url '/').data.getLast? ≠ some '/')
    ∧ (Open get host i s).world.calls
        = s.calls ++ [.Get (TrimRight i.Url '/' ++ "/services/collector/health")]
    ∧ (Open get host i s).world.writer.ticker = s.writer.ticker
    ∧ (get ≠ .ok 200 →
        (Open get host i s).exit = .fatal
        ∧ (Open get host i s).flusher = none
        ∧ ∃ w, (Open get host i s).runFlusher = .ok w ∧ w.writer.ticker = s.writer.ticker)
    ∧ ((Open get host i s).flusher ≠ none →
        get = .ok 200
        ∧ ∃ h, host = .ok h ∧ (Open get host i s).world.writer.hostname = h)
    ∧ (∀ h, get = .ok 200 → host = .ok h →
        (Open get host i s).exit = .returned none
        ∧ (Open get host i s).flusher = some i.FlushInterval
        ∧ (Open get host i s).world.writer.hostname = h
        ∧ (0 < i.FlushInterval →
            ∃ w, (Open get host i s).runFlusher = .ok w
              ∧ w.writer.ticker = some ⟨i.FlushInterval, true⟩
              ∧ w.writer.hostname = h)) := by
  refine ⟨?_, ?_, ?_, ?_, ?_, ?_⟩
  · obtain ⟨k, hk⟩ := trimRightLoop_append '/' i.Url.data.length i.Url.data
    exact ⟨k, hk, trimRightLoop_last '/' _ _ (le_refl _)⟩
  · cases get with
    | error e => simp [Open, World.call, World.logLine, SplunkCollectorHealthPath]
    | ok st =>
      by_cases hst : st = StatusOK
      · cases host <;>
          simp [Open, World.call, World.logLine, hst, SplunkCollectorHealthPath]
      · simp [Open, World.call, World.logLine, hst, SplunkCollectorHealthPath]
  · cases get with
    | error e => simp [Open, World.call, World.logLine]
    | ok st =>
      by_cases hst : st = StatusOK
      · cases host <;> simp [Open, World.call, World.logLine, hst]
      · simp [Open, World.call, World.logLine, hst]
  · intro hget
    cases get with
    | error e => simp [Open, Outcome.runFlusher, World.call, World.logLine]
    | ok st =>
      have hst : st ≠ StatusOK := fun h => hget (by rw [h]; rfl)
      simp [Open, Outcome.runFlusher, World.call, World.logLine, hst]
  · intro hfl
    cases get with
    | error e => simp [Open, World.call, World.logLine] at hfl
    | ok st =>
      by_cases hst : st = StatusOK
      · cases host with
        | error e => simp [Open, World.call, World.logLine, hst] at hfl
        | ok h =>
          have h200 : st = 200 := hst
          simp [Open, World.call, World.logLine, hst, StatusOK]
      · simp [Open, World.call, World.logLine, hst] at hfl
  · intro h hget hhost
    subst hget hhost
    refine ⟨by simp [Open, StatusOK], by simp [Open, StatusOK],
      by simp [Open, StatusOK, World.call, World.logLine], ?_⟩
    intro hi
    have hi2 : ¬ i.FlushInterval ≤ 0 := not_le.mpr hi
    simp [Open, Outcome.runFlusher, StatusOK, World.call, World.logLine, startFlushTicker, hi2]

/-- C9, at a URL with two trailing slashes and a probe answered with 503. -/
theorem Open_probe_gates_flusher_witness :
    (Open (.ok 503) (.ok "web-1") ⟨"https://splunk:8088//", "tok", 10 * Second⟩
        (SplunkHECLog.OpenWriter ⟨"https://splunk:8088//", "tok", 10 * Second⟩).1).world.calls
      = [.Get "https://splunk:8088/services/collector/health"]
    ∧ (Open (.ok 503) (.ok "web-1") ⟨"https://splunk:8088//", "tok", 10 * Second⟩
        (SplunkHECLog.OpenWriter ⟨"https://splunk:8088//", "tok", 10 * Second⟩).1).exit = .fatal
    ∧ (Open (.ok 503) (.ok "web-1") ⟨"https://splunk:8088//", "tok", 10 * Second⟩
        (SplunkHECLog.OpenWriter ⟨"https://splunk:8088//", "tok", 10 * Second⟩).1).flusher
      = none :=
  have h := Open_probe_gates_flusher (.ok 503) (.ok "web-1")
    ⟨"https://splunk:8088//", "tok", 10 * Second⟩
    (SplunkHECLog.OpenWriter ⟨"https://splunk:8088//", "tok", 10 * Second⟩).1
  ⟨h.2.1.trans (by decide), (h.2.2.2.1 (by simp)).1, (h.2.2.2.1 (by simp)).2.1⟩

/-! ## The dispenser at a known position -/

theorem getElem?_mid (pre : List Token) (x : Token) (post : List Token) :
    (pre ++ x :: post)[pre.length]? = some x := by
  rw [List.getElem?_append_right (le_refl _)]
  simp

theorem getElem?_mid_succ (pre : List Token) (x y : Token) (post : List Token) :
    (pre ++ x :: y :: post)[pre.length + 1]? = some y := by
  rw [List.getElem?_append_right (by omega)]
  simp

theorem tokenAt_focus (pre : List Token) (x : Token) (post : List Token) (n : Int) :
    (Dispenser.focus pre x post n).tokenAt (pre.length : Int) = some x := by
  simp only [Dispenser.focus, Dispenser.tokenAt, Int.toNat_ofNat, getElem?_mid]
  simp

theorem tokenAt_focus_succ (pre : List Token) (x y : Token) (post : List Token) (n : Int) :
    (Dispenser.focus pre x (y :: post) n).tokenAt ((pre.length : Int) + 1) = some y := by
  have h : ((pre.length : Int) + 1).toNat = pre.length + 1 := by omega
  have h2 : ¬ ((pre.length : Int) + 1 < 0) := by omega
  simp only [Dispenser.focus, Dispenser.tokenAt, h, h2, getElem?_mid_succ]
  simp

theorem focus_snoc (pre : List Token) (x y : Token) (post : List Token) (n : Int) :
    Dispenser.focus (pre ++ [x]) y post n
      = ⟨pre ++ x :: y :: post, (pre.length : Int) + 1, n⟩ := by
  simp [Dispenser.focus]

theorem Val_focus (pre : List Token) (x : Token) (post : List Token) (n : Int) :
    (Dispenser.focus pre x post n).Val = x.Text := by
  have h := tokenAt_focus pre x post n
  have h1 : ¬ ((pre.length : Int) < 0) := by omega
  have h2 : ¬ ((pre.length : Int) ≥ ((pre ++ x :: post).length : Int)) := by
    simp only [List.length_append, List.length_cons]; push_cast; omega
  unfold Dispenser.Val
  simp only [Dispenser.focus] at h ⊢
  simp [h1, h2, h]

theorem Next_focus_cons (pre : List Token) (x y : Token) (post : List Token) (n : Int) :
    (Dispenser.focus pre x (y :: post) n).Next
      = (true, Dispenser.focus (pre ++ [x]) y post n) := by
  have h2 : (pre.length : Int) < ((pre ++ x :: y :: post).length : Int) - 1 := by
    simp only [List.length_append, List.length_cons]; push_cast; omega
  rw [focus_snoc]
  simp only [Dispenser.Next, Dispenser.focus] at h2 ⊢
  simp [h2]

theorem nextOnSameLine_focus_nil (pre : List Token) (x : Token) (n : Int) :
    (Dispenser.focus pre x [] n).nextOnSameLine = (false, Dispenser.focus pre x [] n) := by
  have h1 : ¬ ((pre.length : Int) < 0) := by omega
  have h2 : (pre.length : Int) ≥ ((pre ++ [x]).length : Int) - 1 := by
    simp only [List.length_append, List.length_cons, List.length_nil]; push_cast; omega
  simp only [Dispenser.nextOnSameLine, Dispenser.focus] at h2 ⊢
  simp [h1, h2]

theorem nextOnSameLine_focus_cons (pre : List Token) (x y : Token) (post : List Token)
    (n : Int) :
    (Dispenser.focus pre x (y :: post) n).nextOnSameLine
      = if isNextOnNewLine x y then (false, Dispenser.focus pre x (y :: post) n)
        else (true, Dispenser.focus (pre ++ [x]) y post n) := by
  have h1 : ¬ ((pre.length : Int) < 0) := by omega
  have h2 : ¬ ((pre.length : Int) ≥ ((pre ++ x :: y :: post).length : Int) - 1) := by
    simp only [List.length_append, List.length_cons]; push_cast; omega
  have ha := tokenAt_focus pre x (y :: post) n
  have hb := tokenAt_focus_succ pre x y post n
  rw [focus_snoc]
  unfold Dispenser.nextOnSameLine
  simp only [Dispenser.focus] at ha hb h2 ⊢
  simp only [h1, h2, if_false, ha, hb]
  cases isNextOnNewLine x y <;> simp

theorem NextArg_focus_same (pre : List Token) (x y : Token) (post : List Token) (n : Int)
    (hline : isNextOnNewLine x y = false) (hy : y.Text ≠ "\x7b") :
    (Dispenser.focus pre x (y :: post) n).NextArg
      = (true, Dispenser.focus (pre ++ [x]) y post n) := by
  unfold Dispenser.NextArg
  rw [nextOnSameLine_focus_cons]
  simp [hline, Val_focus, hy]

theorem NextArg_focus_brace (pre : List Token) (x y : Token) (post : List Token) (n : Int)
    (hline : isNextOnNewLine x y = false) (hy : y.Text = "\x7b") :
    (Dispenser.focus pre x (y :: post) n).NextArg
      = (false, Dispenser.focus pre x (y :: post) n) := by
  unfold Dispenser.NextArg
  rw [nextOnSameLine_focus_cons]
  simp [hline, Val_focus, hy]
  simp [Dispenser.focus]

theorem NextBlock_focus_word (pre : List Token) (x y : Token) (post : List Token)
    (n init : Int) (hn : n > init) (h1 : y.Text ≠ "\x7b") (h2 : y.Text ≠ "\x7d") :
    (Dispenser.focus pre x (y :: post) n).NextBlock init
      = (true, Dispenser.focus (pre ++ [x]) y post n) := by
  have hn1 : (Dispenser.focus pre x (y :: post) n).nesting > init := hn
  have hn2 : (Dispenser.focus (pre ++ [x]) y post n).nesting > init := hn
  unfold Dispenser.NextBlock
  simp [hn1, Next_focus_cons, Val_focus, h1, h2, hn2]

theorem NextBlock_focus_close (pre : List Token) (x y : Token) (h2 : y.Text = "\x7d") :
    (Dispenser.focus pre x [y] 1).NextBlock 0
      = (false, Dispenser.focus (pre ++ [x]) y [] 0) := by
  have hn1 : (Dispenser.focus pre x [y] 1).nesting > 0 := by simp [Dispenser.focus]
  unfold Dispenser.NextBlock
  simp [hn1, Next_focus_cons, Val_focus, h2, nextOnSameLine_focus_nil]
  simp [Dispenser.focus]

theorem NextBlock_first (hdr brace y : Token) (post : List Token)
    (hline : isNextOnNewLine hdr brace = false) (hb : brace.Text = "\x7b") :
    (Dispenser.focus [] hdr (brace :: y :: post) 0).NextBlock 0
      = if y.Text = "\x7d" then (false, Dispenser.focus [hdr, brace] y post 0)
        else (true, Dispenser.focus [hdr, brace] y post 1) := by
  have hn1 : ¬ ((Dispenser.focus [] hdr (brace :: y :: post) 0).nesting > 0) := by
    simp [Dispenser.focus]
  have hnx := Next_focus_cons [hdr] brace y post 0
  simp only [List.singleton_append] at hnx
  unfold Dispenser.NextBlock
  simp only [hn1, if_false, nextOnSameLine_focus_cons, hline, List.nil_append]
  simp [Val_focus, hb, hnx]
  by_cases hy : y.Text = "\x7d"
  · simp [hy]
  · simp [hy, Dispenser.focus]

/-- The body of the `switch` on a word that is no option name. -/
theorem directive_skip (pd : String → Except String Duration) (l : SplunkHECLog)
    (pre : List Token) (x : Token) (post : List Token) (n : Int)
    (hx : ¬ recognised x.Text) :
    directive pd l (Dispenser.focus pre x post n)
      = .ok (l, Dispenser.focus pre x post n) := by
  have h1 : x.Text ≠ "url" := fun h => hx (Or.inl h)
  have h2 : x.Text ≠ "token" := fun h => hx (Or.inr (Or.inl h))
  have h3 : x.Text ≠ "flush_interval" := fun h => hx (Or.inr (Or.inr h))
  simp [directive, Val_focus, h1, h2, h3]

/-! ## The loop of `UnmarshalCaddyfile` reads the directives of the block -/

theorem Next_focus_nil (pre : List Token) (x : Token) (n : Int) :
    (Dispenser.focus pre x [] n).Next = (false, Dispenser.focus pre x [] n) := by
  have h2 : ¬ ((pre.length : Int) < ((pre ++ [x]).length : Int) - 1) := by
    simp only [List.length_append, List.length_cons, List.length_nil]; push_cast; omega
  simp only [Dispenser.Next, Dispenser.focus] at h2 ⊢
  simp [h2]

theorem nextOnSameLine_focus (pre : List Token) (x : Token) (post : List Token) (n : Int) :
    (Dispenser.focus pre x post n).nextOnSameLine
      = match sameLineNext x post with
        | none => (false, Dispenser.focus pre x post n)
        | some (y, post1) => (true, Dispenser.focus (pre ++ [x]) y post1 n) := by
  cases post with
  | nil => simp [nextOnSameLine_focus_nil, sameLineNext]
  | cons y post1 =>
    rw [nextOnSameLine_focus_cons]
    cases h : isNextOnNewLine x y <;> simp [sameLineNext, h]

theorem sameLineNext_eq (x : Token) (post : List Token) (y : Token)
    (post1 : List Token) (h : sameLineNext x post = some (y, post1)) :
    post = y :: post1 := by
  cases post with
  | nil => simp [sameLineNext] at h
  | cons z rest =>
    simp only [sameLineNext] at h
    split_ifs at h
    simp only [Option.some.injEq, Prod.mk.injEq] at h
    rw [h.1, h.2]

theorem sameLineNext_length (x : Token) (post : List Token) (y : Token)
    (post1 : List Token) (h : sameLineNext x post = some (y, post1)) :
    post1.length + 1 = post.length := by
  rw [sameLineNext_eq x post y post1 h]
  simp

theorem NextArg_focus (pre : List Token) (x : Token) (post : List Token) (n : Int) :
    (Dispenser.focus pre x post n).NextArg
      = match sameLineNext x post with
        | none => (false, Dispenser.focus pre x post n)
        | some (a, post1) =>
          if a.Text = "\x7b" then (false, Dispenser.focus pre x post n)
          else (true, Dispenser.focus (pre ++ [x]) a post1 n) := by
  unfold Dispenser.NextArg
  rw [nextOnSameLine_focus]
  cases h : sameLineNext x post with
  | none => simp
  | some r =>
    obtain ⟨a, post1⟩ := r
    have hpost := sameLineNext_eq x post a post1 h
    by_cases ha : a.Text = "\x7b"
    · simp [Val_focus, ha]
      simp [Dispenser.focus, hpost]
    · simp [Val_focus, ha]

/-- The body of the `switch` at a token inside the block: it reads the
directive that `visit` finds there. -/
theorem directive_visit (pd : String → Except String Duration) (l : SplunkHECLog)
    (pre : List Token) (x : Token) (post : List Token) (n : Int) :
    (∃ pre2 x2 d1, directive pd l (Dispenser.focus pre x post n)
      = match visit x post with
        | (none, post2) => .ok (l, Dispenser.focus pre2 x2 post2 n)
        | (some dir, post2) =>
          match runDirective pd l dir with
          | (l1, none) => .ok (l1, Dispenser.focus pre2 x2 post2 n)
          | (l1, some e) => .error (l1, d1, some e))
    ∧ (visit x post).2.length ≤ post.length := by
  by_cases hx : recognised x.Text
  · cases hs : sameLineNext x post with
    | none =>
      refine ⟨⟨pre, x, Dispenser.focus pre x post n, ?_⟩, by simp [visit, hx, hs]⟩
      have hna := NextArg_focus pre x post n
      rw [hs] at hna
      simp only at hna
      rcases hx with h | h | h <;>
        simp [directive, visit, recognised, runDirective, Val_focus, h, hs, hna,
          Dispenser.ArgErr]
    | some r =>
      obtain ⟨a, post1⟩ := r
      have hlen := sameLineNext_length x post a post1 hs
      have hna := NextArg_focus pre x post n
      rw [hs] at hna
      simp only at hna
      by_cases ha : a.Text = "\x7b"
      · refine ⟨⟨pre, x, Dispenser.focus pre x post n, ?_⟩, by simp [visit, hx, hs, ha]⟩
        simp only [ha, if_true] at hna
        rcases hx with h | h | h <;>
          simp [directive, visit, recognised, runDirective, Val_focus, h, hs, hna, ha,
            Dispenser.ArgErr]
      · refine ⟨⟨pre ++ [x], a, Dispenser.focus (pre ++ [x]) a post1 n, ?_⟩, by
          simp [visit, hx, hs, ha]; omega⟩
        simp only [ha, if_false] at hna
        rcases hx with h | h | h
        · simp [directive, visit, recognised, runDirective, Val_focus, h, hs, hna, ha]
        · by_cases ht : l.Token = ""
          · simp [directive, visit, recognised, runDirective, Val_focus, h, hs, hna, ha, ht]
          · simp [directive, visit, recognised, runDirective, Val_focus, h, hs, hna, ha, ht,
              Dispenser.Errf]
        · cases hp : pd a.Text <;>
            simp [directive, visit, recognised, runDirective, Val_focus, h, hs, hna, ha, hp,
              Dispenser.Errf]
  · refine ⟨⟨pre, x, Dispenser.focus pre x post n, ?_⟩, by simp [visit, hx]⟩
    rw [directive_skip pd l pre x post n hx]
    simp [visit, hx]

theorem focus_nesting (pre : List Token) (x : Token) (post : List Token) (n : Int) :
    (Dispenser.focus pre x post n).nesting = n := rfl

theorem focus_set_nesting (pre : List Token) (x : Token) (post : List Token) (n m : Int) :
    { Dispenser.focus pre x post n with nesting := m } = Dispenser.focus pre x post m := rfl

/-- What `NextBlock` returns inside the block, the cursor on `x` and `y` next:
the three places where it may stop, by the braces it meets. -/
theorem NextBlock_focus_cases (pre : List Token) (x y : Token) (post1 : List Token)
    (n init : Int) (hn : n > init) :
    (Dispenser.focus pre x (y :: post1) n).NextBlock init
      = if y.Text = "\x7d" then
          match sameLineNext y post1 with
          | none => (decide (n - 1 > init), Dispenser.focus (pre ++ [x]) y post1 (n - 1))
          | some (z, post2) =>
            if z.Text = "\x7b" then
              match sameLineNext z post2 with
              | none =>
                (decide (n + 1 > init), Dispenser.focus (pre ++ [x] ++ [y]) z post2 (n + 1))
              | some (u, post3) =>
                (decide (n > init), Dispenser.focus (pre ++ [x] ++ [y] ++ [z]) u post3 n)
            else (decide (n > init), Dispenser.focus (pre ++ [x] ++ [y]) z post2 n)
        else if y.Text = "\x7b" then
          match sameLineNext y post1 with
          | none => (decide (n + 1 > init), Dispenser.focus (pre ++ [x]) y post1 (n + 1))
          | some (z, post2) => (decide (n > init), Dispenser.focus (pre ++ [x] ++ [y]) z post2 n)
        else (decide (n > init), Dispenser.focus (pre ++ [x]) y post1 n) := by
  have hn1 : (Dispenser.focus pre x (y :: post1) n).nesting > init := hn
  unfold Dispenser.NextBlock
  simp only [hn1, if_true, Next_focus_cons, Bool.not_true, Bool.false_eq_true, if_false,
    Val_focus]
  by_cases hy : y.Text = "\x7d"
  · simp only [hy, if_true, nextOnSameLine_focus]
    cases hs : sameLineNext y post1 with
    | none => simp [focus_nesting, focus_set_nesting]
    | some r =>
      obtain ⟨z, post2⟩ := r
      simp only [Bool.not_true, Bool.false_eq_true, if_false, Val_focus,
        nextOnSameLine_focus]
      by_cases hz : z.Text = "\x7b"
      · simp only [hz, if_true]
        cases hs2 : sameLineNext z post2 with
        | none => simp [focus_nesting, focus_set_nesting]
        | some r2 =>
          obtain ⟨u, post3⟩ := r2
          simp [focus_nesting]
      · simp [hz, focus_nesting]
  · simp only [hy, if_false, Bool.false_eq_true, Val_focus]
    by_cases hz : y.Text = "\x7b"
    · simp only [hz, if_true, nextOnSameLine_focus]
      cases hs : sameLineNext y post1 with
      | none => simp [focus_nesting, focus_set_nesting]
      | some r =>
        obtain ⟨z, post2⟩ := r
        simp [focus_nesting]
    · simp [hz, focus_nesting]

/-- Inside the block, `NextBlock` moves the cursor to the place that `advance`
gives, and returns `false` where `advance` gives none. -/
theorem NextBlock_advance (pre : List Token) (x : Token) (post : List Token)
    (n init : Int) (hn : n > init) :
    match advance init post n with
    | none => ((Dispenser.focus pre x post n).NextBlock init).1 = false
    | some (x1, post1, n1) =>
      ∃ pre1, (Dispenser.focus pre x post n).NextBlock init
          = (true, Dispenser.focus pre1 x1 post1 n1)
        ∧ n1 > init ∧ post1.length < post.length := by
  have hn1 : (Dispenser.focus pre x post n).nesting > init := hn
  cases post with
  | nil =>
    simp only [advance]
    unfold Dispenser.NextBlock
    simp [hn1, Next_focus_nil]
  | cons y post1 =>
    rw [NextBlock_focus_cases pre x y post1 n init hn]
    simp only [advance]
    by_cases hy : y.Text = "\x7d"
    · simp only [hy, if_true]
      cases hs : sameLineNext y post1 with
      | none =>
        by_cases hc : n - 1 > init
        · simp only [hc, if_true, decide_True]
          exact ⟨pre ++ [x], rfl, trivial, by simp only [List.length_cons]; omega⟩
        · simp [hc]
      | some r =>
        obtain ⟨z, post2⟩ := r
        have hl := sameLineNext_length y post1 z post2 hs
        by_cases hz : z.Text = "\x7b"
        · simp only [hz, if_true]
          cases hs2 : sameLineNext z post2 with
          | none =>
            by_cases hc : n + 1 > init
            · simp only [hc, if_true, decide_True]
              exact ⟨pre ++ [x] ++ [y], rfl, trivial, by simp only [List.length_cons]; omega⟩
            · simp [hc]
          | some r2 =>
            obtain ⟨u, post3⟩ := r2
            have hl2 := sameLineNext_length z post2 u post3 hs2
            simp only [hn, if_true, decide_True]
            exact ⟨pre ++ [x] ++ [y] ++ [z], rfl, trivial, by simp only [List.length_cons]; omega⟩
        · simp only [hz, if_false, hn, if_true, decide_True]
          exact ⟨pre ++ [x] ++ [y], rfl, trivial, by simp only [List.length_cons]; omega⟩
    · simp only [hy, if_false]
      by_cases hz : y.Text = "\x7b"
      · simp only [hz, if_true]
        cases hs : sameLineNext y post1 with
        | none =>
          by_cases hc : n + 1 > init
          · simp only [hc, if_true, decide_True]
            exact ⟨pre ++ [x], rfl, trivial, by simp only [List.length_cons]; omega⟩
          · simp [hc]
        | some r =>
          obtain ⟨z, post2⟩ := r
          have hl := sameLineNext_length y post1 z post2 hs
          simp only [hn, if_true, decide_True]
          exact ⟨pre ++ [x] ++ [y], rfl, trivial, by simp only [List.length_cons]; omega⟩
      · simp only [hz, if_false, hn, if_true, decide_True]
        exact ⟨pre ++ [x], rfl, trivial, by simp only [List.length_cons]; omega⟩

/-- The loop, entered inside the block, does to the configuration what the
directives read from there say, and returns their first error. -/
theorem blockLoop_scan (pd : String → Except String Duration) (fuel : Nat)
    (l : SplunkHECLog) (pre : List Token) (x : Token) (post : List Token) (n : Int)
    (hn : n > 0) (hfuel : post.length + 1 ≤ fuel) :
    ∃ d1, blockLoop pd 0 fuel l (Dispenser.focus pre x post n)
      = some ((runDirectives pd l (scanLoop 0 fuel post n)).1, d1,
          (runDirectives pd l (scanLoop 0 fuel post n)).2) := by
  induction fuel generalizing l pre x post n with
  | zero => omega
  | succ f ih =>
    have hNB := NextBlock_advance pre x post n 0 hn
    rw [blockLoop, scanLoop]
    cases ha : advance 0 post n with
    | none =>
      rw [ha] at hNB
      simp only at hNB
      exact ⟨((Dispenser.focus pre x post n).NextBlock 0).2, by simp [hNB, runDirectives]⟩
    | some r =>
      obtain ⟨x1, post1, n1⟩ := r
      rw [ha] at hNB
      obtain ⟨pre1, hNB, hn1, hlen⟩ := hNB
      obtain ⟨⟨pre2, x2, d1, hd⟩, hvlen⟩ := directive_visit pd l pre1 x1 post1 n1
      simp only [hNB, Bool.not_true, Bool.false_eq_true, if_false]
      rw [hd]
      cases hv : visit x1 post1 with
      | mk dir post2 =>
        rw [hv] at hvlen
        simp only at hvlen
        cases dir with
        | none =>
          obtain ⟨d2, h2⟩ := ih l pre2 x2 post2 n1 hn1 (by omega)
          exact ⟨d2, by simpa using h2⟩
        | some dir =>
          cases hr : runDirective pd l dir with
          | mk l1 e =>
            cases e with
            | none =>
              obtain ⟨d2, h2⟩ := ih l1 pre2 x2 post2 n1 hn1 (by omega)
              exact ⟨d2, by simpa [runDirectives, hr] using h2⟩
            | some e =>
              exact ⟨d1, by simp [runDirectives, hr]⟩

theorem NextArg_new_nil : (NewDispenser []).NextArg = (true, ⟨[], 0, 0⟩) := by
  decide

theorem NextArg_new_cons (hdr : Token) (rest : List Token) :
    (NewDispenser (hdr :: rest)).NextArg
      = if hdr.Text = "\x7b" then (false, NewDispenser (hdr :: rest))
        else (true, Dispenser.focus [] hdr rest 0) := by
  have hv := Val_focus [] hdr rest 0
  simp only [Dispenser.focus, List.nil_append, List.length_nil, Nat.cast_zero] at hv ⊢
  by_cases h : hdr.Text = "\x7b"
  · simp [Dispenser.NextArg, Dispenser.nextOnSameLine, NewDispenser, hv, h]
  · simp [Dispenser.NextArg, Dispenser.nextOnSameLine, NewDispenser, hv, h]

/-- The `NextBlock` that opens the block, by what follows the first token. -/
theorem NextBlock_opening_cases (hdr : Token) (rest : List Token) :
    (Dispenser.focus [] hdr rest 0).NextBlock 0
      = match rest with
        | [] => (false, Dispenser.focus [] hdr [] 0)
        | brace :: body =>
          if isNextOnNewLine hdr brace then (false, Dispenser.focus [] hdr rest 0)
          else if brace.Text ≠ "\x7b" then (false, Dispenser.focus [] hdr rest 0)
          else match body with
            | [] => (true, Dispenser.focus [hdr] brace [] 1)
            | y :: post =>
              if y.Text = "\x7d" then (false, Dispenser.focus [hdr, brace] y post 0)
              else (true, Dispenser.focus [hdr, brace] y post 1) := by
  have hn1 : ¬ ((Dispenser.focus [] hdr rest 0).nesting > 0) := by
    simp [Dispenser.focus]
  unfold Dispenser.NextBlock
  simp only [hn1, if_false, nextOnSameLine_focus]
  cases rest with
  | nil => simp [sameLineNext]
  | cons brace body =>
    by_cases hline : isNextOnNewLine hdr brace = true
    · simp [sameLineNext, hline]
    · simp only [Bool.not_eq_true] at hline
      simp only [sameLineNext, hline, Bool.false_eq_true, if_false, Bool.not_true,
        List.nil_append, Val_focus]
      by_cases hb : brace.Text = "\x7b"
      · simp only [hb, ne_eq, not_true_eq_false, if_false]
        cases body with
        | nil =>
          have hnx := Next_focus_nil [hdr] brace 0
          simp only [List.singleton_append] at hnx
          simp only [hnx, Val_focus, hb]
          simp [focus_set_nesting, focus_nesting]
        | cons y post =>
          have hnx := Next_focus_cons [hdr] brace y post 0
          simp only [List.singleton_append] at hnx
          simp only [hnx, Val_focus]
          by_cases hy : y.Text = "\x7d" <;> simp [hy, focus_set_nesting, focus_nesting]
      · simp [hb]
        simp [Dispenser.focus]

/-- `UnmarshalCaddyfile` on any tokens: unless its first `NextArg` fails, it
does to the configuration what the directives of the block say and returns
their first error. -/
theorem UnmarshalCaddyfile_directives (pd : String → Except String Duration)
    (l : SplunkHECLog) (tokens : List Token) :
    ∃ d1, l.UnmarshalCaddyfile pd (NewDispenser tokens)
      = some ((runDirectives pd l (directives tokens)).1, d1,
          match headerError tokens with
          | some e => some e
          | none => (runDirectives pd l (directives tokens)).2) := by
  unfold SplunkHECLog.UnmarshalCaddyfile
  cases tokens with
  | nil =>
    rw [NextArg_new_nil]
    refine ⟨⟨[], 0, 0⟩, ?_⟩
    simp [blockLoop, Dispenser.NextBlock, Dispenser.nextOnSameLine, Dispenser.Nesting,
      directives, runDirectives, headerError]
  | cons hdr rest =>
    rw [NextArg_new_cons]
    by_cases hh : hdr.Text = "\x7b"
    · refine ⟨NewDispenser (hdr :: rest), ?_⟩
      have hd : directives (hdr :: rest) = [] := by
        cases rest <;> simp [directives, hh]
      simp [hh, hd, runDirectives, headerError, Dispenser.ArgErr, Dispenser.Val,
        NewDispenser]
    · have hlen : (Dispenser.focus [] hdr rest 0).tokens.length = (hdr :: rest).length := by
        simp [Dispenser.focus]
      have hnest : (Dispenser.focus [] hdr rest 0).Nesting = 0 := rfl
      simp only [hh, if_false, Bool.not_true, Bool.false_eq_true, hlen, hnest, headerError]
      rw [blockLoop, NextBlock_opening_cases]
      cases rest with
      | nil => exact ⟨Dispenser.focus [] hdr [] 0, by simp [directives, runDirectives]⟩
      | cons brace body =>
        by_cases hline : isNextOnNewLine hdr brace = true
        · exact ⟨Dispenser.focus [] hdr (brace :: body) 0, by
            simp [directives, runDirectives, hline, hh]⟩
        · simp only [Bool.not_eq_true] at hline
          by_cases hb : brace.Text = "\x7b"
          · cases body with
            | nil =>
              have hskip := directive_skip pd l [hdr] brace [] 1
                (by rw [hb]; simp [recognised])
              obtain ⟨d2, h2⟩ := blockLoop_scan pd ([hdr, brace].length) l [hdr] brace [] 1
                (by omega) (by simp)
              refine ⟨d2, ?_⟩
              simp only [hline, hb, Bool.false_eq_true, if_false, ne_eq, not_true_eq_false,
                Bool.not_true, hskip, directives, hh]
              rw [h2]
              simp [scanLoop, advance, runDirectives]
            | cons y post =>
              by_cases hy : y.Text = "\x7d"
              · exact ⟨Dispenser.focus [hdr, brace] y post 0, by
                  simp [directives, runDirectives, hline, hh, hb, hy]⟩
              · obtain ⟨⟨pre2, x2, d1, hd⟩, hvlen⟩ :=
                  directive_visit pd l [hdr, brace] y post 1
                simp only [hline, hb, hy, Bool.false_eq_true, if_false, ne_eq,
                  not_true_eq_false, Bool.not_true, directives, hh]
                rw [hd]
                cases hv : visit y post with
                | mk dir post2 =>
                  rw [hv] at hvlen
                  simp only at hvlen
                  cases dir with
                  | none =>
                    obtain ⟨d2, h2⟩ := blockLoop_scan pd (hdr :: brace :: y :: post).length
                      l pre2 x2 post2 1 (by omega) (by simp only [List.length_cons]; omega)
                    exact ⟨d2, by simpa using h2⟩
                  | some dir =>
                    cases hr : runDirective pd l dir with
                    | mk l1 e =>
                      cases e with
                      | none =>
                        obtain ⟨d2, h2⟩ := blockLoop_scan pd
                          (hdr :: brace :: y :: post).length l1 pre2 x2 post2 1
                          (by omega) (by simp only [List.length_cons]; omega)
                        exact ⟨d2, by simpa [runDirectives, hr] using h2⟩
                      | some e =>
                        exact ⟨d1, by simp [runDirectives, hr]⟩
          · exact ⟨Dispenser.focus [] hdr (brace :: body) 0, by
              simp [directives, runDirectives, hline, hh, hb]⟩

/-! ## What the directives of a block do to `Token` -/

/-- A directive changes `Token` only from the empty string. -/
theorem runDirective_Token_kept (pd : String → Except String Duration) (l : SplunkHECLog)
    (dir : Directive) (ht : l.Token ≠ "") : (runDirective pd l dir).1.Token = l.Token := by
  obtain ⟨name, arg⟩ := dir
  cases arg with
  | none => rfl
  | some a =>
    simp only [runDirective]
    split_ifs <;> first | rfl | (cases pd a <;> rfl)

/-- A `token` directive on a configuration whose `Token` is set raises an
error. -/
theorem runDirective_token_twice (pd : String → Except String Duration) (l : SplunkHECLog)
    (b : String) (ht : l.Token ≠ "") : (runDirective pd l ("token", some b)).2 ≠ none := by
  simp [runDirective, ht]

/-- Once `Token` is set, one more `token` directive with an argument ends the
block in an error. -/
theorem runDirectives_token_twice (pd : String → Except String Duration)
    (ds : List Directive) (l : SplunkHECLog) (b : String)
    (ht : l.Token ≠ "") (hb : ("token", some b) ∈ ds) : (runDirectives pd l ds).2 ≠ none := by
  induction ds generalizing l with
  | nil => simp at hb
  | cons dir rest ih =>
    have hk := runDirective_Token_kept pd l dir ht
    cases hr : runDirective pd l dir with
    | mk l1 e =>
      cases e with
      | some e => simp [runDirectives, hr]
      | none =>
        rw [hr] at hk
        rcases List.mem_cons.mp hb with h | h
        · have := runDirective_token_twice pd l b ht
          rw [h, hr] at this
          exact absurd rfl this
        · simp only [runDirectives, hr]
          exact ih l1 (by rw [hk]; exact ht) h

/-- A `token` directive whose argument is not empty, followed by another
`token` directive with an argument, ends the block in an error. -/
theorem runDirectives_two_tokens (pd : String → Except String Duration)
    (pre : List Directive) (a : String) (more : List Directive) (b : String)
    (l : SplunkHECLog) (ha : a ≠ "") (hb : ("token", some b) ∈ more) :
    (runDirectives pd l (pre ++ ("token", some a) :: more)).2 ≠ none := by
  induction pre generalizing l with
  | nil =>
    by_cases ht : l.Token = ""
    · have hr : runDirective pd l ("token", some a) = ({ l with Token := a }, none) := by
        simp [runDirective, ht]
      simp only [List.nil_append, runDirectives, hr]
      exact runDirectives_token_twice pd more _ b ha hb
    · simp [runDirectives, runDirective, ht]
  | cons dir rest ih =>
    cases hr : runDirective pd l dir with
    | mk l1 e =>
      cases e with
      | some e => simp [runDirectives, hr]
      | none =>
        simp only [List.cons_append, runDirectives, hr]
        exact ih l1

/-- A directive that is no `token` directive with an argument leaves `Token` as
it was. -/
theorem runDirective_other_Token (pd : String → Except String Duration) (l : SplunkHECLog)
    (dir : Directive) (hd : dir.1 = "token" → dir.2 = none) :
    (runDirective pd l dir).1.Token = l.Token := by
  obtain ⟨name, arg⟩ := dir
  cases arg with
  | none => rfl
  | some a =>
    have hn : name ≠ "token" := fun h => by simpa using hd h
    simp only [runDirective, hn, if_false]
    split_ifs <;> first | rfl | (cases pd a <;> rfl)

/-- Directives among which no `token` directive has an argument leave `Token`
as it was. -/
theorem runDirectives_other_Token (pd : String → Except String Duration)
    (ds : List Directive) (l : SplunkHECLog)
    (hl : ∀ x ∈ ds, x.1 = "token" → x.2 = none) :
    (runDirectives pd l ds).1.Token = l.Token := by
  induction ds generalizing l with
  | nil => rfl
  | cons dir rest ih =>
    have hk := runDirective_other_Token pd l dir (hl dir (List.mem_cons_self _ _))
    cases hr : runDirective pd l dir with
    | mk l1 e =>
      rw [hr] at hk
      cases e with
      | some e => simpa [runDirectives, hr] using hk
      | none =>
        simp only [runDirectives, hr]
        rw [ih l1 (fun v hv => hl v (List.mem_cons_of_mem _ hv))]
        exact hk

/-- Reading directives one after the other. -/
theorem runDirectives_append (pd : String → Except String Duration)
    (xs ys : List Directive) (l : SplunkHECLog) :
    runDirectives pd l (xs ++ ys)
      = match runDirectives pd l xs with
        | (l1, none) => runDirectives pd l1 ys
        | (l1, some e) => (l1, some e) := by
  induction xs generalizing l with
  | nil => simp [runDirectives]
  | cons dir rest ih =>
    cases hr : runDirective pd l dir with
    | mk l1 e =>
      cases e with
      | some e => simp [runDirectives, hr]
      | none => simp [runDirectives, hr, ih]

/-- A directive that raises no error of its own, read on a configuration on
which it is no second `token`, raises none. -/
theorem runDirective_ok (pd : String → Except String Duration) (l : SplunkHECLog)
    (dir : Directive) (hok : DirectiveOk pd dir) (ht : dir.1 = "token" → l.Token = "") :
    (runDirective pd l dir).2 = none := by
  obtain ⟨name, arg⟩ := dir
  obtain ⟨a, ha, hfl⟩ := hok
  simp only at ha hfl ht
  subst ha
  simp only [runDirective]
  split_ifs with h1 h2 h3 h4
  · rfl
  · exact absurd (ht h2) h3
  · rfl
  · have := hfl h4
    cases hp : pd a with
    | error e => rw [hp] at this; simp [Except.toBool] at this
    | ok v => rfl
  · rfl

/-- Directives that raise no error of their own and hold no `token` directive
with an argument end without an error. -/
theorem runDirectives_ok (pd : String → Except String Duration)
    (ds : List Directive) (l : SplunkHECLog)
    (hl : ∀ x ∈ ds, x.1 = "token" → x.2 = none) (hok : ∀ x ∈ ds, DirectiveOk pd x) :
    (runDirectives pd l ds).2 = none := by
  induction ds generalizing l with
  | nil => rfl
  | cons dir rest ih =>
    have hrest := ih (l := (runDirective pd l dir).1)
      (fun v hv => hl v (List.mem_cons_of_mem _ hv))
      (fun v hv => hok v (List.mem_cons_of_mem _ hv))
    have hdok := hok dir (List.mem_cons_self _ _)
    have hline : (runDirective pd l dir).2 = none := by
      apply runDirective_ok pd l dir hdok
      intro hname
      have hnone := hl dir (List.mem_cons_self _ _) hname
      obtain ⟨a, ha, _⟩ := hdok
      rw [hnone] at ha
      simp at ha
    cases hr : runDirective pd l dir with
    | mk l1 e =>
      rw [hr] at hline hrest
      simp only at hline
      subst hline
      simpa [runDirectives, hr] using hrest

/-- A block with exactly one `token` directive that has an argument, read from
a configuration whose `Token` is empty. -/
theorem runDirectives_one_token (pd : String → Except String Duration)
    (pre : List Directive) (a : String) (post : List Directive) (l : SplunkHECLog)
    (ht : l.Token = "")
    (hpre : ∀ x ∈ pre, x.1 = "token" → x.2 = none)
    (hpost : ∀ x ∈ post, x.1 = "token" → x.2 = none) :
    ((runDirectives pd l (pre ++ ("token", some a) :: post)).2 = none →
        (runDirectives pd l (pre ++ ("token", some a) :: post)).1.Token = a)
    ∧ ((∀ x ∈ pre, DirectiveOk pd x) →
        (runDirectives pd l (pre ++ ("token", some a) :: post)).1.Token = a)
    ∧ ((∀ x ∈ pre ++ ("token", some a) :: post, DirectiveOk pd x) →
        (runDirectives pd l (pre ++ ("token", some a) :: post)).2 = none) := by
  have hT := runDirectives_other_Token pd pre l hpre
  rw [runDirectives_append]
  cases hr : runDirectives pd l pre with
  | mk l1 e =>
    rw [hr] at hT
    simp only at hT
    have ht1 : l1.Token = "" := by rw [hT, ht]
    cases e with
    | some e =>
      have hbad : ¬ ∀ x ∈ pre, DirectiveOk pd x := by
        intro hok
        have := runDirectives_ok pd pre l hpre hok
        rw [hr] at this
        simp at this
      refine ⟨by simp, fun hok => absurd hok hbad, fun hok => ?_⟩
      exact absurd (fun v hv => hok v (List.mem_append_left _ hv)) hbad
    | none =>
      have hl : runDirective pd l1 ("token", some a) = ({ l1 with Token := a }, none) := by
        simp [runDirective, ht1]
      simp only [runDirectives, hl]
      have hTok := runDirectives_other_Token pd post { l1 with Token := a } hpost
      refine ⟨fun _ => hTok, fun _ => hTok, fun hok => ?_⟩
      exact runDirectives_ok pd post _ hpost
        (fun v hv => hok v (List.mem_append_right _ (List.mem_cons_of_mem _ hv)))

/-- No directive is read when the first `NextArg` fails. -/
theorem directives_headerError (tokens : List Token) (e : String)
    (h : headerError tokens = some e) : directives tokens = [] := by
  match tokens with
  | [] => rfl
  | [t] => rfl
  | t :: u :: rest =>
    by_cases ht : t.Text = "\x7b"
    · simp [directives, ht]
    · simp [headerError, ht] at h

/-! ## The `token` option -/

/-- The directives of three blocks: one option on each line; a `token` line
with a word too many before a second `token` line; two `token` options on
one line. -/
theorem directives_examples :
    directives (blockTokens "Caddyfile" 1 [["url", "u"], ["token", "abc"]])
      = [("url", some "u"), ("token", some "abc")]
    ∧ directives (blockTokens "Caddyfile" 1 [["token", "a", "b"], ["token", "c"]])
      = [("token", some "a"), ("token", some "c")]
    ∧ directives (blockTokens "Caddyfile" 1 [["token", "a", "token", "b"]])
      = [("token", some "a"), ("token", some "b")] := by
  decide

/-- C10 as stated fails: a block with two `token` directives, each with an
argument, the first the quoted empty argument `""`, is accepted without an
error, and `Token` is the argument of the second.  And in a block whose one
`token` directive comes after a `flush_interval` that does not parse, the call
ends at that error with `Token` still empty. -/
theorem UnmarshalCaddyfile_two_tokens_accepted :
    directives (blockTokens "Caddyfile" 1 [["token", ""], ["token", "abc"]])
      = [("token", some ""), ("token", some "abc")]
    ∧ (SplunkHECLog.zero.UnmarshalCaddyfile (fun _ => .error "not a duration")
        (NewDispenser (blockTokens "Caddyfile" 1 [["token", ""], ["token", "abc"]]))).map
      (fun r => (r.1, r.2.2)) = some (⟨"", "abc", 0⟩, none)
    ∧ directives (blockTokens "Caddyfile" 1 [["flush_interval", "bogus"], ["token", "abc"]])
      = [("flush_interval", some "bogus"), ("token", some "abc")]
    ∧ (SplunkHECLog.zero.UnmarshalCaddyfile
        (fun w => if w = "bogus" then .error "not a duration" else .ok 0)
        (NewDispenser
          (blockTokens "Caddyfile" 1 [["flush_interval", "bogus"], ["token", "abc"]]))).map
      (fun r => (r.1, r.2.2))
      = some (⟨"", "", 0⟩, some "invalid flush_interval duration bogus: not a duration") := by
  decide

/-- C10, amended: for every list of tokens given to `UnmarshalCaddyfile` on a
zero-valued configuration.  If among the directives of the block a `token`
directive whose argument is not the empty string is followed, anywhere later,
by another `token` directive with an argument, `UnmarshalCaddyfile` returns
an error.  If exactly one `token` directive of the block has an argument,
`UnmarshalCaddyfile` returns, a `nil` error comes with `Token` equal to that
argument, `Token` equals it as well whenever no directive before it raises an
error, and the error is `nil` whenever no directive raises one of its own
(each has an argument and every `flush_interval` argument parses). -/
theorem UnmarshalCaddyfile_token_once (pd : String → Except String Duration)
    (tokens : List Token) :
    (∀ pre a mid b post,
        directives tokens = pre ++ ("token", some a) :: (mid ++ ("token", some b) :: post) →
        a ≠ "" →
        ∃ l1 d1 e, SplunkHECLog.zero.UnmarshalCaddyfile pd (NewDispenser tokens)
          = some (l1, d1, some e))
    ∧ (∀ pre a post, directives tokens = pre ++ ("token", some a) :: post →
        (∀ x ∈ pre ++ post, x.1 = "token" → x.2 = none) →
        ∃ l1 d1 err, SplunkHECLog.zero.UnmarshalCaddyfile pd (NewDispenser tokens)
            = some (l1, d1, err)
          ∧ (err = none → l1.Token = a)
          ∧ ((∀ x ∈ pre, DirectiveOk pd x) → l1.Token = a)
          ∧ ((∀ x ∈ directives tokens, DirectiveOk pd x) → err = none)) := by
  obtain ⟨d1, hd⟩ := UnmarshalCaddyfile_directives pd SplunkHECLog.zero tokens
  constructor
  · intro pre a mid b post hds ha
    have herr : (runDirectives pd SplunkHECLog.zero (directives tokens)).2 ≠ none := by
      rw [hds]
      exact runDirectives_two_tokens pd pre a (mid ++ ("token", some b) :: post) b _ ha
        (by simp)
    cases hh : headerError tokens with
    | some e => exact ⟨_, d1, e, by rw [hd, hh]⟩
    | none =>
      cases he : (runDirectives pd SplunkHECLog.zero (directives tokens)).2 with
      | none => exact absurd he herr
      | some e => exact ⟨_, d1, e, by rw [hd, hh, he]⟩
  · intro pre a post hds hone
    have hh : headerError tokens = none := by
      cases hh : headerError tokens with
      | none => rfl
      | some e =>
        have := directives_headerError tokens e hh
        rw [this] at hds
        simp at hds
    have h := runDirectives_one_token pd pre a post SplunkHECLog.zero rfl
      (fun v hv => hone v (List.mem_append_left _ hv))
      (fun v hv => hone v (List.mem_append_right _ hv))
    rw [← hds] at h
    rw [hh] at hd
    exact ⟨_, d1, _, hd, h.1, h.2.1, h.2.2⟩

/-- C10 amended, at a block with a URL, one token and a flush interval. -/
theorem UnmarshalCaddyfile_token_once_witness :
    ∃ l1 d1, SplunkHECLog.zero.UnmarshalCaddyfile
        (fun w => if w = "5s" then .ok (5 * Second) else .error "not a duration")
        (NewDispenser (blockTokens "Caddyfile" 1
          [["url", "https://splunk:8088"], ["token", "abc"], ["flush_interval", "5s"]]))
        = some (l1, d1, none)
      ∧ l1.Token = "abc" := by
  obtain ⟨l1, d1, err, h, htok, _, hnone⟩ :=
    (UnmarshalCaddyfile_token_once
      (fun w => if w = "5s" then .ok (5 * Second) else .error "not a duration")
      (blockTokens "Caddyfile" 1
        [["url", "https://splunk:8088"], ["token", "abc"], ["flush_interval", "5s"]])).2
      [("url", some "https://splunk:8088")] "abc" [("flush_interval", some "5s")]
      (by decide) (by decide)
  have herr : err = none := hnone (by decide)
  subst herr
  exact ⟨l1, d1, h, htok rfl⟩

/-! ## The loop of `UnmarshalCaddyfile` ends on every dispenser -/

theorem Advanced_refl (d : Dispenser) : d.Advanced d := ⟨rfl, rfl, le_refl _⟩

theorem Advanced_trans {d d1 d2 : Dispenser} (h1 : d.Advanced d1) (h2 : d1.Advanced d2) :
    d.Advanced d2 :=
  ⟨h2.1.trans h1.1, h2.2.1.trans h1.2.1, le_trans h1.2.2 h2.2.2⟩

theorem nextOnSameLine_Advanced (d : Dispenser) : d.Advanced d.nextOnSameLine.2 := by
  unfold Dispenser.nextOnSameLine
  split_ifs with h1 h2
  · exact ⟨rfl, rfl, by simp⟩
  · exact Advanced_refl d
  · split
    · split_ifs
      · exact ⟨rfl, rfl, by simp⟩
      · exact Advanced_refl d
    · exact Advanced_refl d

theorem Next_Advanced (d : Dispenser) :
    d.Advanced d.Next.2
    ∧ (d.Next.1 = true →
        d.cursor < (d.tokens.length : Int) - 1 ∧ d.Next.2.cursor = d.cursor + 1) := by
  unfold Dispenser.Next
  split_ifs with h
  · exact ⟨⟨rfl, rfl, by simp⟩, fun _ => ⟨h, rfl⟩⟩
  · exact ⟨Advanced_refl d, fun h => by simp at h⟩

theorem NextArg_Advanced (d : Dispenser) : d.Advanced d.NextArg.2 := by
  have h := nextOnSameLine_Advanced d
  have hc : d.nextOnSameLine.1 = true → d.nextOnSameLine.2.cursor = d.cursor + 1 := by
    unfold Dispenser.nextOnSameLine
    split_ifs with h1 h2
    · intro _; rfl
    · intro h; simp at h
    · split
      · split_ifs
        · intro _; rfl
        · intro h; simp at h
      · intro h; simp at h
  unfold Dispenser.NextArg
  cases hs : d.nextOnSameLine with
  | mk same d1 =>
    rw [hs] at h hc
    cases same with
    | false => simpa using h
    | true =>
      have hcur : d1.cursor = d.cursor + 1 := hc rfl
      by_cases hv : d1.Val = "\x7b"
      · simp only [hv, Bool.not_true, Bool.false_eq_true, if_false, if_true]
        exact ⟨h.1, h.2.1, by simp [hcur]⟩
      · simpa [hv] using h

theorem Val_in_range (d : Dispenser) (h : d.Val ≠ "") : 0 ≤ d.cursor := by
  by_contra hneg
  apply h
  unfold Dispenser.Val
  have : d.cursor < 0 := by omega
  simp [this]

theorem directive_Advanced (pd : String → Except String Duration) (l l1 : SplunkHECLog)
    (d d1 : Dispenser) (h : directive pd l d = .ok (l1, d1)) : d.Advanced d1 := by
  have ha := NextArg_Advanced d
  unfold directive at h
  cases hn : d.NextArg with
  | mk ok d2 =>
    rw [hn] at ha h
    simp only at ha h
    split_ifs at h with h1 h2 h3 h4 h5 h6 h7
    · simp only [Except.ok.injEq, Prod.mk.injEq] at h
      rw [← h.2]; exact ha
    · simp only [Except.ok.injEq, Prod.mk.injEq] at h
      rw [← h.2]; exact ha
    · cases hp : pd d2.Val with
      | error e => rw [hp] at h; simp at h
      | ok v =>
        rw [hp] at h
        simp only [Except.ok.injEq, Prod.mk.injEq] at h
        rw [← h.2]; exact ha
    · simp only [Except.ok.injEq, Prod.mk.injEq] at h
      rw [← h.2]; exact Advanced_refl d

/-- Inside the block, a `NextBlock` that returns `true` has moved the cursor
forward, from a position before the last token, and stays inside the block. -/
theorem NextBlock_nested (d : Dispenser) (init : Int) (h : d.nesting > init)
    (ht : (d.NextBlock init).1 = true) :
    (d.NextBlock init).2.tokens = d.tokens
    ∧ (d.NextBlock init).2.nesting > init
    ∧ d.cursor + 1 ≤ (d.NextBlock init).2.cursor
    ∧ d.cursor < (d.tokens.length : Int) - 1 := by
  obtain ⟨hadv, hnext⟩ := Next_Advanced d
  unfold Dispenser.NextBlock at ht ⊢
  simp only [h, if_true] at ht ⊢
  cases hN : d.Next with
  | mk more d1 =>
    rw [hN] at hadv hnext ht
    simp only at hadv hnext ht ⊢
    cases more with
    | false => simp at ht
    | true =>
      obtain ⟨hlt, hcur⟩ := hnext rfl
      simp only [Bool.not_true, Bool.false_eq_true, if_false] at ht ⊢
      have hs1 := nextOnSameLine_Advanced d1
      by_cases hv : d1.Val = "\x7d"
      · simp only [hv, if_true] at ht ⊢
        cases hs : d1.nextOnSameLine with
        | mk same d2 =>
          rw [hs] at hs1 ht
          simp only at hs1 ht ⊢
          have hs2 := nextOnSameLine_Advanced d2
          cases same with
          | false =>
            simp only [Bool.not_false, if_true, decide_eq_true_eq] at ht ⊢
            exact ⟨hs1.1.trans hadv.1, ht, by have := hs1.2.2; omega, hlt⟩
          | true =>
            simp only [Bool.not_true, Bool.false_eq_true, if_false] at ht ⊢
            by_cases hv2 : d2.Val = "\x7b"
            · simp only [hv2, if_true] at ht ⊢
              cases hs' : d2.nextOnSameLine with
              | mk same2 d3 =>
                rw [hs'] at hs2 ht
                simp only at hs2 ht ⊢
                cases same2 with
                | false =>
                  simp only [Bool.not_false, if_true, decide_eq_true_eq] at ht ⊢
                  exact ⟨hs2.1.trans (hs1.1.trans hadv.1), ht,
                    by have := hs1.2.2; have := hs2.2.2; omega, hlt⟩
                | true =>
                  simp only [Bool.not_true, Bool.false_eq_true, if_false,
                    decide_eq_true_eq] at ht ⊢
                  exact ⟨hs2.1.trans (hs1.1.trans hadv.1), ht,
                    by have := hs1.2.2; have := hs2.2.2; omega, hlt⟩
            · simp only [hv2, if_false, Bool.false_eq_true, decide_eq_true_eq] at ht ⊢
              exact ⟨hs1.1.trans hadv.1, ht, by have := hs1.2.2; omega, hlt⟩
      · simp only [hv, if_false, Bool.false_eq_true] at ht ⊢
        by_cases hv2 : d1.Val = "\x7b"
        · simp only [hv2, if_true] at ht ⊢
          cases hs : d1.nextOnSameLine with
          | mk same d2 =>
            rw [hs] at hs1 ht
            simp only at hs1 ht ⊢
            cases same with
            | false =>
              simp only [Bool.not_false, if_true, decide_eq_true_eq] at ht ⊢
              exact ⟨hs1.1.trans hadv.1, ht, by have := hs1.2.2; omega, hlt⟩
            | true =>
              simp only [Bool.not_true, Bool.false_eq_true, if_false,
                decide_eq_true_eq] at ht ⊢
              exact ⟨hs1.1.trans hadv.1, ht, by have := hs1.2.2; omega, hlt⟩
        · simp only [hv2, if_false, Bool.false_eq_true, decide_eq_true_eq] at ht ⊢
          exact ⟨hadv.1, ht, by omega, hlt⟩

/-- The `NextBlock` that opens the block, when it returns `true`, leaves the
cursor on a token and the nesting one level up. -/
theorem NextBlock_opening (d : Dispenser) (ht : (d.NextBlock d.nesting).1 = true) :
    (d.NextBlock d.nesting).2.tokens = d.tokens
    ∧ (d.NextBlock d.nesting).2.nesting > d.nesting
    ∧ 0 ≤ (d.NextBlock d.nesting).2.cursor
    ∧ 1 ≤ d.tokens.length := by
  have hs1 := nextOnSameLine_Advanced d
  unfold Dispenser.NextBlock at ht ⊢
  simp only [gt_iff_lt, lt_self_iff_false, if_false] at ht ⊢
  cases hs : d.nextOnSameLine with
  | mk same d1 =>
    rw [hs] at hs1 ht
    simp only at hs1 ht ⊢
    obtain ⟨hadv, _⟩ := Next_Advanced d1
    cases same with
    | false => simp at ht
    | true =>
      simp only [Bool.not_true, Bool.false_eq_true, if_false] at ht ⊢
      by_cases hv : d1.Val = "\x7b"
      · have hpos : 0 ≤ d1.cursor := Val_in_range d1 (by rw [hv]; decide)
        have hlen : 1 ≤ d.tokens.length := by
          by_contra hl
          have h0 : d1.tokens.length = 0 := by rw [hs1.1]; omega
          have : d1.Val = "" := by
            unfold Dispenser.Val
            have : d1.cursor ≥ (d1.tokens.length : Int) := by rw [h0]; simpa using hpos
            simp [this]
          rw [this] at hv
          exact absurd hv (by decide)
        simp only [hv, ne_eq, not_true_eq_false, if_false] at ht ⊢
        by_cases hv2 : d1.Next.2.Val = "\x7d"
        · simp [hv2] at ht
        · simp only [hv2, if_false]
          refine ⟨hadv.1.trans hs1.1, ?_, ?_, hlen⟩
          · have := hadv.2.1; have := hs1.2.1; show d.nesting < d1.Next.2.nesting + 1; omega
          · have := hadv.2.2; show 0 ≤ d1.Next.2.cursor; omega
      · simp [hv] at ht

/-- Inside the block the loop ends within one iteration for each token after
the cursor, and one more. -/
theorem blockLoop_nested_total (pd : String → Except String Duration) (init : Int)
    (fuel : Nat) (l : SplunkHECLog) (d : Dispenser) (hn : d.nesting > init)
    (hfuel : ((d.tokens.length : Int) - 1 - d.cursor).toNat + 1 ≤ fuel) :
    (blockLoop pd init fuel l d).isSome = true := by
  induction fuel generalizing l d with
  | zero => omega
  | succ f ih =>
    rw [blockLoop]
    cases hb : d.NextBlock init with
    | mk more d1 =>
      cases more with
      | false => simp
      | true =>
        have hfacts := NextBlock_nested d init hn (by rw [hb])
        rw [hb] at hfacts
        simp only at hfacts
        obtain ⟨htok, hnest, hcur, hlt⟩ := hfacts
        simp only [Bool.not_true, Bool.false_eq_true, if_false]
        cases hd : directive pd l d1 with
        | error r => simp
        | ok r =>
          obtain ⟨l2, d2⟩ := r
          have hadv := directive_Advanced pd l l2 d1 d2 hd
          simp only
          apply ih
          · rw [hadv.2.1]; exact hnest
          · rw [hadv.1, htok]
            have := hadv.2.2
            omega

/-- `UnmarshalCaddyfile` returns on every dispenser: the iterations allowed to
its loop are never used up. -/
theorem UnmarshalCaddyfile_total (pd : String → Except String Duration)
    (l : SplunkHECLog) (d : Dispenser) : (l.UnmarshalCaddyfile pd d).isSome = true := by
  unfold SplunkHECLog.UnmarshalCaddyfile
  cases ha : d.NextArg with
  | mk ok d1 =>
    cases ok with
    | false => simp
    | true =>
      simp only [Bool.not_true, Bool.false_eq_true, if_false, Dispenser.Nesting]
      rw [blockLoop]
      cases hb : d1.NextBlock d1.nesting with
      | mk more d2 =>
        cases more with
        | false => simp
        | true =>
          have hfacts := NextBlock_opening d1 (by rw [hb])
          rw [hb] at hfacts
          simp only at hfacts
          obtain ⟨htok, hnest, hcur, hlen⟩ := hfacts
          simp only [Bool.not_true, Bool.false_eq_true, if_false]
          cases hd : directive pd l d2 with
          | error r => simp
          | ok r =>
            obtain ⟨l3, d3⟩ := r
            have hadv := directive_Advanced pd l l3 d2 d3 hd
            simp only
            apply blockLoop_nested_total
            · rw [hadv.2.1]; exact hnest
            · rw [hadv.1, htok]
              have := hadv.2.2
              omega

end SplunkHEC
